import Mathlib

/-!
Verification development for the slam-bot repository.

The Python sources are shallowly embedded: Python floats are modelled as
real numbers, Python ints as `Int`/`Nat`, numpy column vectors and
matrices as dimension-carrying entry functions, exceptions as `Except`,
and Python dictionaries (which preserve insertion order) as association
lists.  Each definition carries a comment naming the source construct it
translates.
-/

open Real Matrix

noncomputable section

/-! ## Collision-map cells and explorer space classification

Embeds `MapLocation` (collision_map.py) and `Explorer.get_space_status`
(explorer.py).  Counters are natural numbers (they start at 0 and are
only incremented); thresholds are Python ints, embedded as `Int`.
-/

/-- A location of the map that stores various counts (collision_map.py,
`MapLocation`). -/
structure MapLocation where
  stepped_count : ℕ
  missed_count : ℕ
  hit_count : ℕ
  deriving DecidableEq, Repr

/-- The space classification statuses (explorer.py, `SpaceStatus`). -/
inductive SpaceStatus where
  | UNKNOWN
  | PASSABLE
  | BLOCKED
  deriving DecidableEq, Repr

/-- The threshold configuration of an `Explorer` (explorer.py, fields set in
`Explorer.__init__`). -/
structure ExplorerCfg where
  step_threshold : ℤ
  miss_threshold : ℤ
  hit_threshold : ℤ
  deriving DecidableEq, Repr

/-- Translation of `Explorer.get_space_status` (explorer.py lines 178-189):
stepped, then hit, then missed, first match wins. -/
def get_space_status (e : ExplorerCfg) (space : MapLocation) : SpaceStatus :=
  if e.step_threshold ≤ (space.stepped_count : ℤ) then .PASSABLE
  else if e.hit_threshold ≤ (space.hit_count : ℤ) then .BLOCKED
  else if e.miss_threshold ≤ (space.missed_count : ℤ) then .PASSABLE
  else .UNKNOWN

/-- C6: `Explorer.get_space_status` classifies by first match in the order
stepped → hit → missed → unknown: PASSABLE iff the step threshold is met or
(the hit threshold is unmet and the miss threshold is met); BLOCKED iff the
step threshold is unmet and the hit threshold is met; UNKNOWN iff none of the
three thresholds are met; in particular any cell meeting the step threshold is
PASSABLE even when it also meets the hit threshold. -/
theorem explorer_space_status_first_match (e : ExplorerCfg) (s : MapLocation) :
    (get_space_status e s = .PASSABLE ↔
      (e.step_threshold ≤ (s.stepped_count : ℤ) ∨
        ((s.stepped_count : ℤ) < e.step_threshold ∧
          (s.hit_count : ℤ) < e.hit_threshold ∧
          e.miss_threshold ≤ (s.missed_count : ℤ)))) ∧
    (get_space_status e s = .BLOCKED ↔
      ((s.stepped_count : ℤ) < e.step_threshold ∧
        e.hit_threshold ≤ (s.hit_count : ℤ))) ∧
    (get_space_status e s = .UNKNOWN ↔
      ((s.stepped_count : ℤ) < e.step_threshold ∧
        (s.hit_count : ℤ) < e.hit_threshold ∧
        (s.missed_count : ℤ) < e.miss_threshold)) ∧
    (e.step_threshold ≤ (s.stepped_count : ℤ) →
      e.hit_threshold ≤ (s.hit_count : ℤ) →
      get_space_status e s = .PASSABLE) := by
  unfold get_space_status
  split_ifs with h1 h2 h3 <;> refine ⟨?_, ?_, ?_, ?_⟩ <;> simp_all <;> omega

/-- Witness for C6: a cell that is both stepped and hit is PASSABLE. -/
theorem explorer_space_status_first_match_witness :
    get_space_status ⟨1, 5, 2⟩ ⟨1, 0, 2⟩ = .PASSABLE :=
  (explorer_space_status_first_match ⟨1, 5, 2⟩ ⟨1, 0, 2⟩).2.2.2
    (by decide) (by decide)

/-! ## Key quantization for the collision map

Embeds `get_discrete_coord` (collision_map.py lines 23-25) and
`CollisionMap.__get_key` (lines 126-130).  Python `x % s` for a float `x`
and positive `s` equals `x - s * ⌊x / s⌋`, and Python `int(...)` truncates
toward zero.
-/

/-- Python float modulo: for a positive modulus, `x % s = x - s * ⌊x / s⌋`. -/
def pyMod (x s : ℝ) : ℝ := x - s * ⌊x / s⌋

/-- Python `int(...)` applied to a float: truncation toward zero. -/
def pyInt (x : ℝ) : ℤ := if 0 ≤ x then ⌊x⌋ else ⌈x⌉

/-- Translation of `get_discrete_coord` (collision_map.py lines 23-25). -/
def get_discrete_coord (scale : ℤ) (coord : ℝ) : ℤ :=
  pyInt ((coord + (scale : ℝ) / 2) - pyMod (coord + (scale : ℝ) / 2) (scale : ℝ))

/-- Translation of `CollisionMap.__get_key` (collision_map.py lines 126-130);
identical formula applied to each coordinate. -/
def collision_get_key (scale : ℤ) (x y : ℝ) : ℤ × ℤ :=
  (pyInt ((x + (scale : ℝ) / 2) - pyMod (x + (scale : ℝ) / 2) (scale : ℝ)),
   pyInt ((y + (scale : ℝ) / 2) - pyMod (y + (scale : ℝ) / 2) (scale : ℝ)))

/-- The shifted coordinate minus its Python modulo is the integer
`scale * ⌊shifted / scale⌋`. -/
theorem shifted_sub_pyMod (s : ℤ) (t : ℝ) :
    t - pyMod t (s : ℝ) = ((s * ⌊t / (s : ℝ)⌋ : ℤ) : ℝ) := by
  unfold pyMod
  push_cast
  ring

/-- `pyInt` agrees with the floor on exact integers (truncation toward zero of
an integer value is that integer). -/
theorem pyInt_intCast (n : ℤ) : pyInt ((n : ℝ) : ℝ) = n := by
  unfold pyInt
  split_ifs <;> simp

/-- C7: the cell key of a real coordinate `c` with positive integer `scale` is
`floor((c + scale/2) − (c + scale/2) mod scale)` on each axis (the source's
`int(...)` truncation agrees with the floor because the operand is an exact
integer), and in particular with `scale = 5` the keys of `(2,−2)`, `(3,3)` and
`(−10,−2)` are `(0,0)`, `(5,5)` and `(−10,0)`. -/
theorem collision_key_quantization (scale : ℤ) (hs : 0 < scale) (c x y : ℝ) :
    get_discrete_coord scale c =
      ⌊(c + (scale : ℝ) / 2) - pyMod (c + (scale : ℝ) / 2) (scale : ℝ)⌋ ∧
    collision_get_key scale x y =
      (get_discrete_coord scale x, get_discrete_coord scale y) ∧
    collision_get_key 5 2 (-2) = (0, 0) ∧
    collision_get_key 5 3 3 = (5, 5) ∧
    collision_get_key 5 (-10) (-2) = (-10, 0) := by
  have key_eq : ∀ t : ℝ, pyInt (t - pyMod t (scale : ℝ)) =
      ⌊t - pyMod t (scale : ℝ)⌋ := by
    intro t
    rw [shifted_sub_pyMod scale t, pyInt_intCast, Int.floor_intCast]
  have floor_val : ∀ (s : ℤ) (t : ℝ), pyInt (t - pyMod t (s : ℝ)) =
      s * ⌊t / (s : ℝ)⌋ := by
    intro s t
    rw [shifted_sub_pyMod s t, pyInt_intCast]
  have comp : ∀ (s : ℤ) (t : ℝ) (k : ℤ), ⌊(t + (s : ℝ) / 2) / (s : ℝ)⌋ = k →
      pyInt ((t + (s : ℝ) / 2) - pyMod (t + (s : ℝ) / 2) (s : ℝ)) = s * k := by
    intro s t k hk
    rw [floor_val s, hk]
  refine ⟨key_eq _, rfl, ?_, ?_, ?_⟩
  · unfold collision_get_key
    rw [comp 5 2 0 (by norm_num [Int.floor_eq_iff]),
      comp 5 (-2) 0 (by norm_num [Int.floor_eq_iff])]
    norm_num
  · unfold collision_get_key
    rw [comp 5 3 1 (by norm_num [Int.floor_eq_iff])]
    norm_num
  · unfold collision_get_key
    rw [comp 5 (-10) (-2) (by norm_num [Int.floor_eq_iff]),
      comp 5 (-2) 0 (by norm_num [Int.floor_eq_iff])]
    norm_num

/-- Witness for C7 at `scale = 5`, coordinates `(2, -2)`. -/
theorem collision_key_quantization_witness :
    collision_get_key 5 2 (-2) = (0, 0) :=
  (collision_key_quantization 5 (by norm_num) 2 2 (-2)).2.2.1

/-! ## Angle normalization and normalized angle difference

Embeds `normalize_angle` and `normalized_angle_difference`
(landmark_extraction.py lines 5-19).  The two `while` loops of
`normalize_angle` become terminating recursions; `min(..., key=abs)` keeps
the earlier candidate on ties, which the conditional chain below mirrors.
-/

/-- The loop `while ret_angle < 0: ret_angle += tau` of `normalize_angle`. -/
def add_tau_loop (a : ℝ) : ℝ :=
  if a < 0 then add_tau_loop (a + 2 * π) else a
termination_by (⌈-a / (2 * π)⌉).toNat
decreasing_by
  rename_i h
  have hpi : (0:ℝ) < 2 * π := by positivity
  have h1 : (0:ℝ) < -a / (2 * π) := div_pos (by linarith) hpi
  have h2 : (0:ℤ) < ⌈-a / (2 * π)⌉ := Int.ceil_pos.mpr h1
  have h3 : -(a + 2 * π) / (2 * π) = -a / (2 * π) - 1 := by
    field_simp
    ring
  rw [h3, Int.ceil_sub_one]
  exact (Int.toNat_lt_toNat h2).mpr (by omega)

/-- The loop `while ret_angle >= tau: ret_angle -= tau` of `normalize_angle`. -/
def sub_tau_loop (a : ℝ) : ℝ :=
  if 2 * π ≤ a then sub_tau_loop (a - 2 * π) else a
termination_by (⌊a / (2 * π)⌋).toNat
decreasing_by
  rename_i h
  have hpi : (0:ℝ) < 2 * π := by positivity
  have h1 : (1:ℝ) ≤ a / (2 * π) := (one_le_div hpi).mpr h
  have h2 : (1:ℤ) ≤ ⌊a / (2 * π)⌋ := by
    exact_mod_cast Int.le_floor.mpr (by exact_mod_cast h1)
  have h3 : (a - 2 * π) / (2 * π) = a / (2 * π) - 1 := by
    field_simp
  rw [h3]
  rw [show ((1:ℝ) : ℝ) = ((1 : ℤ) : ℝ) by norm_num, Int.floor_sub_int]
  exact (Int.toNat_lt_toNat (by omega)).mpr (by omega)

/-- Translation of `normalize_angle` (landmark_extraction.py lines 5-12):
run the add loop, then the subtract loop. -/
def normalize_angle (a : ℝ) : ℝ := sub_tau_loop (add_tau_loop a)

/-- Translation of `normalized_angle_difference` (landmark_extraction.py
lines 14-19).  The source also computes `normalize_angle` of both inputs but
never uses the results; `min(diff, diff+tau, diff-tau, key=abs)` scans left
to right and replaces the current minimum only on strict decrease of the
absolute value. -/
def normalized_angle_difference (first second : ℝ) : ℝ :=
  let diff := second - first
  let c1 := if |diff + 2 * π| < |diff| then diff + 2 * π else diff
  if |diff - 2 * π| < |c1| then diff - 2 * π else c1

theorem add_tau_loop_nonneg (a : ℝ) : 0 ≤ add_tau_loop a := by
  induction a using add_tau_loop.induct with
  | case1 a h ih => rw [add_tau_loop, if_pos h]; exact ih
  | case2 a h => rw [add_tau_loop, if_neg h]; linarith

theorem sub_tau_loop_lt (a : ℝ) : sub_tau_loop a < 2 * π := by
  induction a using sub_tau_loop.induct with
  | case1 a h ih => rw [sub_tau_loop, if_pos h]; exact ih
  | case2 a h => rw [sub_tau_loop, if_neg h]; linarith

theorem sub_tau_loop_nonneg (a : ℝ) (ha : 0 ≤ a) : 0 ≤ sub_tau_loop a := by
  induction a using sub_tau_loop.induct with
  | case1 a h ih =>
    rw [sub_tau_loop, if_pos h]
    exact ih (by nlinarith [Real.pi_pos])
  | case2 a h => rw [sub_tau_loop, if_neg h]; exact ha

/-- Counterexample for C4: for `a = 0`, `b = 4π` the source returns `2π`,
whose absolute value exceeds `π`, so `|normalized_angle_difference a b| ≤ π`
fails for general real inputs (the source takes the un-normalized difference
`b − a`, which here lies outside `[−2π, 2π]`). -/
theorem normalized_angle_difference_counterexample :
    normalized_angle_difference 0 (4 * π) = 2 * π ∧
    π < |normalized_angle_difference 0 (4 * π)| := by
  have hpi := Real.pi_pos
  have hval : normalized_angle_difference 0 (4 * π) = 2 * π := by
    unfold normalized_angle_difference
    have h1 : ¬ |4 * π - 0 + 2 * π| < |4 * π - 0| := by
      rw [not_lt, abs_of_nonneg (by linarith), abs_of_nonneg (by linarith)]
      linarith
    have h2 : |4 * π - 0 - 2 * π| < |4 * π - 0| := by
      rw [abs_of_nonneg (by linarith), abs_of_nonneg (by linarith)]
      linarith
    simp only [normalized_angle_difference]
    rw [if_neg h1, if_pos h2]
    ring
  refine ⟨hval, ?_⟩
  rw [hval, abs_of_nonneg (by linarith)]
  linarith

/-- C4 (amended): `normalize_angle` lands in `[0, 2π)`;
`normalized_angle_difference a b` is an element of
`{b−a, b−a+2π, b−a−2π}` of minimum absolute value; and
`|normalized_angle_difference a b| ≤ π` holds whenever `|b − a| ≤ 2π`
(the source uses the un-normalized difference, so the bound fails for
wider inputs, see the counterexample). -/
theorem normalize_angle_and_difference (a b : ℝ) :
    (0 ≤ normalize_angle a ∧ normalize_angle a < 2 * π) ∧
    (normalized_angle_difference a b = b - a ∨
      normalized_angle_difference a b = b - a + 2 * π ∨
      normalized_angle_difference a b = b - a - 2 * π) ∧
    (|normalized_angle_difference a b| ≤ |b - a| ∧
      |normalized_angle_difference a b| ≤ |b - a + 2 * π| ∧
      |normalized_angle_difference a b| ≤ |b - a - 2 * π|) ∧
    (|b - a| ≤ 2 * π → |normalized_angle_difference a b| ≤ π) := by
  have hpi := Real.pi_pos
  constructor
  · exact ⟨sub_tau_loop_nonneg _ (add_tau_loop_nonneg a), sub_tau_loop_lt _⟩
  have hmem : normalized_angle_difference a b = b - a ∨
      normalized_angle_difference a b = b - a + 2 * π ∨
      normalized_angle_difference a b = b - a - 2 * π := by
    simp only [normalized_angle_difference]
    split_ifs <;> simp
  have hmin : |normalized_angle_difference a b| ≤ |b - a| ∧
      |normalized_angle_difference a b| ≤ |b - a + 2 * π| ∧
      |normalized_angle_difference a b| ≤ |b - a - 2 * π| := by
    simp only [normalized_angle_difference]
    split_ifs with h1 h2 h3 <;> refine ⟨?_, ?_, ?_⟩ <;> linarith
  refine ⟨hmem, hmin, ?_⟩
  intro hrange
  rcases abs_le.mp hrange with ⟨hlo, hhi⟩
  by_cases hd : 0 ≤ b - a
  · by_cases hsmall : b - a ≤ π
    · exact le_trans hmin.1 (abs_le.mpr (by constructor <;> linarith))
    · exact le_trans hmin.2.2 (abs_le.mpr (by constructor <;> linarith))
  · by_cases hsmall : -π ≤ b - a
    · exact le_trans hmin.1 (abs_le.mpr (by constructor <;> linarith))
    · exact le_trans hmin.2.1 (abs_le.mpr (by constructor <;> linarith))

/-- Witness for C4 (amended) at `a = 0`, `b = π`. -/
theorem normalize_angle_and_difference_witness :
    |normalized_angle_difference 0 π| ≤ π :=
  (normalize_angle_and_difference 0 π).2.2.2
    (by rw [abs_of_nonneg (by linarith [Real.pi_pos])]
        linarith [Real.pi_pos])

/-! ## Numpy arrays

A numpy 2-d array is embedded as its shape together with an entry
function; rows and columns beyond the shape are irrelevant junk.
Python floats are real numbers; `np.linalg.inv` of the 2×2 innovation
covariances raises `LinAlgError` exactly on determinant zero, and float
division by zero raises `ZeroDivisionError`; both are modelled with
`Except`.
-/

/-- An exception escaping a numpy/Python numeric operation. -/
inductive PyErr where
  | LinAlgErrorSingular
  | ZeroDivisionError
  deriving DecidableEq, Repr

/-- A numpy 2-d array: shape plus entry function. -/
structure NMat where
  rows : ℕ
  cols : ℕ
  entry : ℕ → ℕ → ℝ

/-- `np.zeros((r, c))`. -/
def NMat.zeros (r c : ℕ) : NMat := ⟨r, c, fun _ _ => 0⟩

/-- `np.eye(n)` / `np.identity(n)`. -/
def NMat.eye (n : ℕ) : NMat := ⟨n, n, fun i j => if i = j then 1 else 0⟩

/-- Elementwise multiplication of an array by a scalar on the right. -/
def NMat.scale (A : NMat) (c : ℝ) : NMat := ⟨A.rows, A.cols, fun i j => A.entry i j * c⟩

/-- `np.transpose`. -/
def NMat.transpose (A : NMat) : NMat := ⟨A.cols, A.rows, fun i j => A.entry j i⟩

/-- The `@` matrix product. -/
def NMat.matmul (A B : NMat) : NMat :=
  ⟨A.rows, B.cols, fun i j => ∑ k ∈ Finset.range A.cols, A.entry i k * B.entry k j⟩

/-- Elementwise `+` of equal-shaped arrays (the shape of the left operand). -/
def NMat.add (A B : NMat) : NMat := ⟨A.rows, A.cols, fun i j => A.entry i j + B.entry i j⟩

/-- Slice assignment `M[r:r+B.rows, c:c+B.cols] = B`. -/
def NMat.setBlock (M : NMat) (r c : ℕ) (B : NMat) : NMat :=
  ⟨M.rows, M.cols, fun i j =>
    if r ≤ i ∧ i < r + B.rows ∧ c ≤ j ∧ j < c + B.cols
    then B.entry (i - r) (j - c) else M.entry i j⟩

/-- Element assignment `M[i][j] = v`. -/
def NMat.setEntry (M : NMat) (i j : ℕ) (v : ℝ) : NMat :=
  ⟨M.rows, M.cols, fun a b => if a = i ∧ b = j then v else M.entry a b⟩

/-- The slice `M[r1:r2, c1:c2]`. -/
def NMat.slice (M : NMat) (r1 r2 c1 c2 : ℕ) : NMat :=
  ⟨r2 - r1, c2 - c1, fun i j => M.entry (r1 + i) (c1 + j)⟩

/-- Symmetry of an array's entry function. -/
def NMat.Symm (M : NMat) : Prop := ∀ i j, M.entry i j = M.entry j i

/-- `math.atan2 y x`, the argument of the complex number `x + i y`. -/
def atan2 (y x : ℝ) : ℝ := Complex.arg ⟨x, y⟩

/-! ## The extended Kalman filter

Embeds ekf.py.  Landmark kinds (arbitrary hashable Python values compared
with `!=`) are abstracted as natural numbers.  Python dictionaries play no
role here; the landmark bookkeeping lists are Lean lists.  The methods
that can raise (`np.linalg.inv` on a singular innovation covariance,
division by `r = 0` in the measurement-model Jacobian) return `Except`.
-/

/-- Translation of `ekf_index` (ekf.py lines 5-6). -/
def ekf_index (landmark_index : ℕ) : ℕ := 3 + 2 * landmark_index

/-- The configuration parameters taken by `EKF.__init__` (ekf.py lines 10-22). -/
structure EKFParams where
  initial_uncertainty : ℝ
  odometry_noise : ℝ
  range_noise : ℝ
  bearing_noise : ℝ
  innovation_lambda : ℝ
  landmark_threshold : ℕ

/-- An observed landmark `(x, y, type)` as passed to `EKF.update`. -/
structure ObsLandmark where
  x : ℝ
  y : ℝ
  kind : ℕ

/-- The mutable state of an `EKF` instance (ekf.py lines 13-16). -/
structure EKFState where
  landmark_types : List ℕ
  landmark_counts : List ℕ
  system_state : NMat
  covariance : NMat

/-- The state built by `EKF.__init__`: no landmarks, `μ = 0₃ₓ₁`,
`Σ = initial_uncertainty · I₃`. -/
def EKF_init (p : EKFParams) : EKFState :=
  ⟨[], [], NMat.zeros 3 1, (NMat.eye 3).scale p.initial_uncertainty⟩

/-- The logical size of the state vector and covariance, `3 + 2L`. -/
def EKF_dim (s : EKFState) : ℕ := ekf_index s.landmark_types.length

/-- Translation of `EKF.pos_after_move` (ekf.py lines 38-46): turn, then move. -/
def pos_after_move (s : EKFState) (delta_theta odemetry : ℝ) : NMat :=
  let theta := s.system_state.entry 2 0 + delta_theta
  let x := s.system_state.entry 0 0 + odemetry * Real.cos theta
  let y := s.system_state.entry 1 0 + odemetry * Real.sin theta
  ⟨3, 1, fun i _ => if i = 0 then x else if i = 1 then y else theta⟩

/-- Translation of `EKF.__prediction_model_jacobian` (ekf.py lines 105-111);
`np.eye(3)` with entries `[0][2]` and `[1][2]` overwritten using the current
pose angle. -/
def prediction_model_jacobian (s : EKFState) (odemetry : ℝ) : NMat :=
  let pos_theta := s.system_state.entry 2 0
  ⟨3, 3, fun i j =>
    if i = 0 ∧ j = 2 then -odemetry * Real.cos pos_theta
    else if i = 1 ∧ j = 2 then odemetry * Real.sin pos_theta
    else if i = j then 1 else 0⟩

/-- Translation of `EKF.__control_noise` (ekf.py lines 113-123). -/
def control_noise (p : EKFParams) (s : EKFState) (delta_theta odemetry : ℝ) : NMat :=
  let pos_theta := s.system_state.entry 2 0
  let comp : ℕ → ℝ := fun i =>
    if i = 0 then odemetry * Real.cos pos_theta
    else if i = 1 then odemetry * Real.sin pos_theta
    else delta_theta
  ⟨3, 3, fun i j => p.odometry_noise * comp i * comp j⟩

/-- Translation of `EKF.__update_position_covariance` (ekf.py lines 99-103). -/
def update_position_covariance (p : EKFParams) (s : EKFState)
    (delta_theta odemetry : ℝ) : EKFState :=
  let pmj := prediction_model_jacobian s odemetry
  let top := s.covariance.slice 0 3 0 3
  let newTop := ((pmj.matmul top).matmul pmj.transpose).add
    (control_noise p s delta_theta odemetry)
  { s with covariance := s.covariance.setBlock 0 0 newTop }

/-- Translation of `EKF.__landmark` (ekf.py lines 204-210). -/
def ekf_landmark (s : EKFState) (landmark_index : ℕ) : ℝ × ℝ × ℕ :=
  (s.system_state.entry (ekf_index landmark_index) 0,
   s.system_state.entry (ekf_index landmark_index + 1) 0,
   s.landmark_types.getD landmark_index 0)

/-- Translation of `EKF.__landmark_dist` (ekf.py lines 194-202); `math.inf`
for a kind mismatch is modelled by `none`. -/
def ekf_landmark_dist (s : EKFState) (landmark_index : ℕ)
    (other : ObsLandmark) : Option ℝ :=
  let l := ekf_landmark s landmark_index
  if l.2.2 ≠ other.kind then none
  else some (Real.sqrt ((l.1 - other.x) ^ 2 + (l.2.1 - other.y) ^ 2))

/-- Strict comparison of optional distances, `none` acting as `math.inf`. -/
def optDistLt : Option ℝ → Option ℝ → Prop
  | some a, some b => a < b
  | some _, none => True
  | none, _ => False

instance : ∀ x y : Option ℝ, Decidable (optDistLt x y) := fun x y => by
  cases x <;> cases y <;> simp only [optDistLt] <;> infer_instance

/-- Python's `min(range(L), key=...)`: scan from the left, replacing the
current best only on strict decrease of the key (ekf.py line 140). -/
def closest_landmark_index (s : EKFState) (ob : ObsLandmark) : ℕ :=
  (List.range s.landmark_types.length).foldl
    (fun best i =>
      if optDistLt (ekf_landmark_dist s i ob) (ekf_landmark_dist s best ob)
      then i else best) 0

/-- Translation of `EKF.__measurement_model_jacobian` (ekf.py lines 173-192).
The divisions by `r` and `r²` raise `ZeroDivisionError` when `r = 0`. -/
def measurement_model_jacobian (s : EKFState) (landmark_index : ℕ) :
    Except PyErr NMat :=
  let x := s.system_state.entry 0 0
  let y := s.system_state.entry 1 0
  let l := ekf_landmark s landmark_index
  let r := Real.sqrt ((x - l.1) ^ 2 + (y - l.2.1) ^ 2)
  if r = 0 then .error .ZeroDivisionError
  else .ok ⟨2, ekf_index s.landmark_types.length, fun a b =>
    if a = 0 ∧ b = 0 then (x - l.1) / r
    else if a = 0 ∧ b = 1 then (y - l.2.1) / r
    else if a = 1 ∧ b = 0 then (l.2.1 - y) / r ^ 2
    else if a = 1 ∧ b = 1 then (l.1 - x) / r ^ 2
    else if a = 1 ∧ b = 2 then -1
    else if a = 0 ∧ b = ekf_index landmark_index then -((x - l.1) / r)
    else if a = 0 ∧ b = ekf_index landmark_index + 1 then -((y - l.2.1) / r)
    else if a = 1 ∧ b = ekf_index landmark_index then -((l.2.1 - y) / r ^ 2)
    else if a = 1 ∧ b = ekf_index landmark_index + 1 then -((l.1 - x) / r ^ 2)
    else 0⟩

/-- The per-landmark error matrix: `[1][1] = bearing_noise` is set once
before each loop, `[0][0] = r·range_noise` is overwritten per landmark
(ekf.py lines 136-137, 151-152, 84-85, 240-241, 253-254). -/
def landmark_error_mat (p : EKFParams) (px py lx ly : ℝ) : NMat :=
  ⟨2, 2, fun i j =>
    if i = 0 ∧ j = 0
    then Real.sqrt ((lx - px) ^ 2 + (ly - py) ^ 2) * p.range_noise
    else if i = 1 ∧ j = 1 then p.bearing_noise
    else 0⟩

/-- Translation of `EKF.__landmark_innovation_covariance` (ekf.py
lines 167-171). -/
def landmark_innovation_covariance (s : EKFState) (landmark_index : ℕ)
    (landmark_error : NMat) : Except PyErr NMat :=
  (measurement_model_jacobian s landmark_index).map fun mmj =>
    ((mmj.matmul s.covariance).matmul mmj.transpose).add
      (((NMat.eye 2).matmul landmark_error).matmul (NMat.eye 2).transpose)

/-- `np.linalg.inv` applied to the 2×2 innovation covariances: raises
`LinAlgError` exactly when the determinant is zero. -/
def np_inv_2x2 (M : NMat) : Except PyErr NMat :=
  let d := M.entry 0 0 * M.entry 1 1 - M.entry 0 1 * M.entry 1 0
  if d = 0 then .error .LinAlgErrorSingular
  else .ok ⟨2, 2, fun i j =>
    if i = 0 ∧ j = 0 then M.entry 1 1 / d
    else if i = 0 ∧ j = 1 then -M.entry 0 1 / d
    else if i = 1 ∧ j = 0 then -M.entry 1 0 / d
    else if i = 1 ∧ j = 1 then M.entry 0 0 / d
    else 0⟩

/-- The loop body of `EKF.__associate_landmarks` (ekf.py lines 139-163),
processing the observations left to right. -/
def associate_loop (p : EKFParams) (s : EKFState) :
    List ObsLandmark → Except PyErr (List (ObsLandmark × ℕ) × List ObsLandmark)
  | [] => .ok ([], [])
  | ob :: rest =>
    let ci := closest_landmark_index s ob
    match ekf_landmark_dist s ci ob with
    | none => (associate_loop p s rest).map fun r => (r.1, ob :: r.2)
    | some _ =>
      let l := ekf_landmark s ci
      let err := landmark_error_mat p (s.system_state.entry 0 0)
        (s.system_state.entry 1 0) l.1 l.2.1
      let innovation : NMat :=
        ⟨2, 1, fun i _ => if i = 0 then l.1 - ob.x else l.2.1 - ob.y⟩
      match landmark_innovation_covariance s ci err with
      | .error e => .error e
      | .ok ic =>
        match np_inv_2x2 ic with
        | .error e => .error e
        | .ok icInv =>
          if ((innovation.transpose.matmul icInv).matmul innovation).entry 0 0
              ≤ p.innovation_lambda
          then (associate_loop p s rest).map fun r => ((ob, ci) :: r.1, r.2)
          else (associate_loop p s rest).map fun r => (r.1, ob :: r.2)

/-- Translation of `EKF.__associate_landmarks` (ekf.py lines 125-165). -/
def associate_landmarks (p : EKFParams) (s : EKFState)
    (observed : List ObsLandmark) :
    Except PyErr (List (ObsLandmark × ℕ) × List ObsLandmark) :=
  if s.landmark_types.length = 0 then .ok ([], observed)
  else associate_loop p s observed

/-- The loop body of `EKF.__update_system_state` (ekf.py lines 72-97).  The
pose `(px, py, pθ)` is captured once before the loop; the landmark positions
and the Jacobians read the live, possibly already-updated state. -/
def update_state_loop (p : EKFParams) (px py ptheta : ℝ) :
    EKFState → List (ObsLandmark × ℕ) → Except PyErr EKFState
  | s, [] => .ok s
  | s, (ob, idx) :: rest =>
    let s1 := { s with landmark_counts :=
      s.landmark_counts.set idx (s.landmark_counts.getD idx 0 + 1) }
    if s1.landmark_counts.getD idx 0 ≤ p.landmark_threshold
    then update_state_loop p px py ptheta s1 rest
    else
      let l := ekf_landmark s1 idx
      let err := landmark_error_mat p px py l.1 l.2.1
      match measurement_model_jacobian s1 idx with
      | .error e => .error e
      | .ok mmj =>
        match landmark_innovation_covariance s1 idx err with
        | .error e => .error e
        | .ok ic =>
          match np_inv_2x2 ic with
          | .error e => .error e
          | .ok icInv =>
            let kalman_gain := (s1.covariance.matmul mmj.transpose).matmul icInv
            let deviation : NMat := ⟨2, 1, fun i _ =>
              if i = 0
              then Real.sqrt ((ob.x - px) ^ 2 + (ob.y - py) ^ 2)
                - Real.sqrt ((l.1 - px) ^ 2 + (l.2.1 - py) ^ 2)
              else (atan2 (ob.y - py) (ob.x - px) - ptheta)
                - (atan2 (l.2.1 - py) (l.1 - px) - ptheta)⟩
            let s2 := { s1 with system_state :=
              s1.system_state.add (kalman_gain.matmul deviation) }
            update_state_loop p px py ptheta s2 rest

/-- Translation of `EKF.__update_system_state` (ekf.py lines 64-97). -/
def update_system_state (p : EKFParams) (s : EKFState)
    (associated : List (ObsLandmark × ℕ)) : Except PyErr EKFState :=
  update_state_loop p (s.system_state.entry 0 0) (s.system_state.entry 1 0)
    (s.system_state.entry 2 0) s associated

/-- Translation of `EKF.__resize` (ekf.py lines 212-226): zero-extend the
state vector and covariance, a no-op when the size is unchanged. -/
def EKF_resize (s : EKFState) (new_size : ℕ) : EKFState :=
  let old_size := ekf_index s.landmark_types.length
  if new_size = old_size then s
  else { s with
    system_state :=
      (NMat.zeros new_size 1).setBlock 0 0 (s.system_state.slice 0 old_size 0 1),
    covariance :=
      (NMat.zeros new_size new_size).setBlock 0 0
        (s.covariance.slice 0 old_size 0 old_size) }

/-- The landmark-landmark covariance loop of `EKF.__add_landmarks`
(ekf.py lines 266-270). -/
def lm_cov_loop (lpj : NMat) (n : ℕ) : NMat → List ℕ → NMat
  | cov, [] => cov
  | cov, k :: rest =>
    lm_cov_loop lpj n
      (cov.setBlock n (ekf_index k)
        (lpj.matmul (cov.slice 0 3 (ekf_index k) (ekf_index k + 2)))) rest

/-- The per-landmark body of `EKF.__add_landmarks` (ekf.py lines 246-274). -/
def add_landmarks_loop (p : EKFParams) (px py : ℝ) (lpj lrbj : NMat) :
    EKFState → List ObsLandmark → EKFState
  | s, [] => s
  | s, lm :: rest =>
    let n := ekf_index s.landmark_types.length
    let lprev := s.landmark_types.length
    let s1 := { s with
      landmark_types := s.landmark_types ++ [lm.kind],
      landmark_counts := s.landmark_counts ++ [1],
      system_state := (s.system_state.setEntry n 0 lm.x).setEntry (n + 1) 0 lm.y }
    let err := landmark_error_mat p px py lm.x lm.y
    let c1 := s1.covariance.setBlock n n
      (((lpj.matmul (s1.covariance.slice 0 3 0 3)).matmul lpj.transpose).add
        ((lrbj.matmul err).matmul lrbj.transpose))
    let c2 := c1.setBlock 0 n ((c1.slice 0 3 0 3).matmul lpj.transpose)
    let c3 := c2.setBlock n 0 ((c2.slice 0 3 n (n + 2)).transpose)
    let c4 := lm_cov_loop lpj n c3 (List.range lprev)
    let c5 := c4.setBlock 3 n ((c4.slice n (n + 2) 3 (3 + 2 * lprev)).transpose)
    add_landmarks_loop p px py lpj lrbj { s1 with covariance := c5 } rest

/-- Translation of `EKF.__add_landmarks` (ekf.py lines 228-274). -/
def add_landmarks (p : EKFParams) (s : EKFState)
    (new_landmarks : List ObsLandmark) (odemetry : ℝ) : EKFState :=
  let next_index := ekf_index s.landmark_types.length
  let new_size := next_index + 2 * new_landmarks.length
  let px := s.system_state.entry 0 0
  let py := s.system_state.entry 1 0
  let ptheta := s.system_state.entry 2 0
  let lpj : NMat := ⟨2, 3, fun i j =>
    if i = 0 ∧ j = 0 then 1
    else if i = 0 ∧ j = 2 then -odemetry * Real.sin ptheta
    else if i = 1 ∧ j = 1 then 1
    else if i = 1 ∧ j = 2 then odemetry * Real.cos ptheta
    else 0⟩
  let lrbj : NMat := ⟨2, 2, fun i j =>
    if i = 0 ∧ j = 0 then Real.cos ptheta
    else if i = 0 ∧ j = 1 then -odemetry * Real.sin ptheta
    else if i = 1 ∧ j = 0 then Real.sin ptheta
    else odemetry * Real.cos ptheta⟩
  add_landmarks_loop p px py lpj lrbj (EKF_resize s new_size) new_landmarks

/-- The first two steps of `EKF.update` (ekf.py lines 52-54): overwrite the
pose entries of `μ` with the predicted pose, then update the pose
covariance. -/
def EKF_predict (p : EKFParams) (s : EKFState) (delta_theta odemetry : ℝ) :
    EKFState :=
  update_position_covariance p
    { s with system_state :=
      s.system_state.setBlock 0 0 (pos_after_move s delta_theta odemetry) }
    delta_theta odemetry

/-- Translation of `EKF.update` (ekf.py lines 48-62).  The final
`__assert_invariants` call checks exactly the properties proven in the
well-formedness theorem below, so it is established rather than modelled. -/
def EKF_update (p : EKFParams) (s : EKFState) (delta_theta odemetry : ℝ)
    (observed_landmarks : List ObsLandmark) : Except PyErr EKFState :=
  let s2 := EKF_predict p s delta_theta odemetry
  match associate_landmarks p s2 observed_landmarks with
  | .error e => .error e
  | .ok assoc =>
    match update_system_state p s2 assoc.1 with
    | .error e => .error e
    | .ok s3 => .ok (add_landmarks p s3 assoc.2 odemetry)

/-- One input to `EKF.update`. -/
structure UpdateInput where
  delta_theta : ℝ
  odemetry : ℝ
  observed : List ObsLandmark

/-- A finite sequence of `EKF.update` calls from a fresh `EKF`. -/
def run_updates (p : EKFParams) (inputs : List UpdateInput) :
    Except PyErr EKFState :=
  inputs.foldlM (fun s i => EKF_update p s i.delta_theta i.odemetry i.observed)
    (EKF_init p)

/-- The invariants asserted by `EKF.__assert_invariants` (ekf.py
lines 24-32): the bookkeeping lists agree, `μ` is `(3+2L)×1`, `Σ` is
`(3+2L)×(3+2L)`, and `Σ` is symmetric (exactly, hence within any
tolerance). -/
def EKFWellFormed (s : EKFState) : Prop :=
  s.landmark_types.length = s.landmark_counts.length ∧
  s.system_state.rows = EKF_dim s ∧
  s.system_state.cols = 1 ∧
  s.covariance.rows = EKF_dim s ∧
  s.covariance.cols = EKF_dim s ∧
  s.covariance.Symm

/-! ### Shape and symmetry lemmas for the embedded numpy operations -/

@[simp] theorem NMat.matmul_rows (A B : NMat) : (A.matmul B).rows = A.rows := rfl

@[simp] theorem NMat.matmul_cols (A B : NMat) : (A.matmul B).cols = B.cols := rfl

@[simp] theorem NMat.add_rows (A B : NMat) : (A.add B).rows = A.rows := rfl

@[simp] theorem NMat.add_cols (A B : NMat) : (A.add B).cols = A.cols := rfl

@[simp] theorem NMat.transpose_rows (A : NMat) : A.transpose.rows = A.cols := rfl

@[simp] theorem NMat.transpose_cols (A : NMat) : A.transpose.cols = A.rows := rfl

@[simp] theorem NMat.setBlock_rows (M B : NMat) (r c : ℕ) :
    (M.setBlock r c B).rows = M.rows := rfl

@[simp] theorem NMat.setBlock_cols (M B : NMat) (r c : ℕ) :
    (M.setBlock r c B).cols = M.cols := rfl

@[simp] theorem NMat.setEntry_rows (M : NMat) (i j : ℕ) (v : ℝ) :
    (M.setEntry i j v).rows = M.rows := rfl

@[simp] theorem NMat.setEntry_cols (M : NMat) (i j : ℕ) (v : ℝ) :
    (M.setEntry i j v).cols = M.cols := rfl

@[simp] theorem NMat.slice_rows (M : NMat) (r1 r2 c1 c2 : ℕ) :
    (M.slice r1 r2 c1 c2).rows = r2 - r1 := rfl

@[simp] theorem NMat.slice_cols (M : NMat) (r1 r2 c1 c2 : ℕ) :
    (M.slice r1 r2 c1 c2).cols = c2 - c1 := rfl

@[simp] theorem NMat.zeros_rows (r c : ℕ) : (NMat.zeros r c).rows = r := rfl

@[simp] theorem NMat.zeros_cols (r c : ℕ) : (NMat.zeros r c).cols = c := rfl

@[simp] theorem NMat.scale_rows (A : NMat) (c : ℝ) : (A.scale c).rows = A.rows := rfl

@[simp] theorem NMat.scale_cols (A : NMat) (c : ℝ) : (A.scale c).cols = A.cols := rfl

@[simp] theorem NMat.eye_rows (n : ℕ) : (NMat.eye n).rows = n := rfl

@[simp] theorem NMat.eye_cols (n : ℕ) : (NMat.eye n).cols = n := rfl

theorem NMat.setBlock_entry_in {M B : NMat} {r c i j : ℕ}
    (h1 : r ≤ i) (h2 : i < r + B.rows) (h3 : c ≤ j) (h4 : j < c + B.cols) :
    (M.setBlock r c B).entry i j = B.entry (i - r) (j - c) := by
  simp [NMat.setBlock, h1, h2, h3, h4]

theorem NMat.setBlock_entry_out {M B : NMat} {r c i j : ℕ}
    (h : ¬(r ≤ i ∧ i < r + B.rows ∧ c ≤ j ∧ j < c + B.cols)) :
    (M.setBlock r c B).entry i j = M.entry i j := by
  simp only [NMat.setBlock, if_neg h]

theorem NMat.slice_entry (M : NMat) (r1 r2 c1 c2 i j : ℕ) :
    (M.slice r1 r2 c1 c2).entry i j = M.entry (r1 + i) (c1 + j) := rfl

theorem NMat.transpose_entry (A : NMat) (i j : ℕ) :
    A.transpose.entry i j = A.entry j i := rfl

/-- Congruence sandwich preserves symmetry: `A P Aᵀ` is symmetric when `P`
is and the inner dimension matches. -/
theorem NMat.symm_sandwich (A P : NMat) (hc : P.cols = A.cols) (hP : P.Symm) :
    ((A.matmul P).matmul A.transpose).Symm := by
  intro i j
  simp only [NMat.matmul, NMat.transpose, NMat.matmul_cols, hc]
  simp only [Finset.sum_mul]
  rw [Finset.sum_comm]
  refine Finset.sum_congr rfl fun x _ => Finset.sum_congr rfl fun y _ => ?_
  rw [hP y x]
  ring

theorem NMat.symm_add {A B : NMat} (hA : A.Symm) (hB : B.Symm) : (A.add B).Symm := by
  intro i j
  simp only [NMat.add]
  rw [hA i j, hB i j]

theorem NMat.symm_setBlock_diag {M B : NMat} (r : ℕ) (hrc : B.rows = B.cols)
    (hB : B.Symm) (hM : M.Symm) : (M.setBlock r r B).Symm := by
  intro i j
  simp only [NMat.setBlock]
  split_ifs with h1 h2 h3
  · exact hB _ _
  · exact absurd ⟨h1.2.2.1, by omega, h1.1, by omega⟩ h2
  · exact absurd ⟨h3.2.2.1, by omega, h3.1, by omega⟩ h1
  · exact hM i j

/-- A diagonal 3×3 slice of a symmetric array is symmetric. -/
theorem NMat.symm_slice_diag {M : NMat} (hM : M.Symm) (a b : ℕ) :
    (M.slice a b a b).Symm := by
  intro i j
  simp only [NMat.slice]
  exact hM _ _

/-- The control noise matrix `odometry_noise · v vᵀ` is symmetric. -/
theorem control_noise_symm (p : EKFParams) (s : EKFState)
    (delta_theta odemetry : ℝ) : (control_noise p s delta_theta odemetry).Symm := by
  intro i j
  simp only [control_noise]
  ring

/-- The predicted pose covariance write preserves symmetry of `Σ`. -/
theorem update_position_covariance_symm (p : EKFParams) (s : EKFState)
    (delta_theta odemetry : ℝ) (hs : s.covariance.Symm) :
    (update_position_covariance p s delta_theta odemetry).covariance.Symm := by
  unfold update_position_covariance
  refine NMat.symm_setBlock_diag 0 (by simp) ?_ hs
  exact NMat.symm_add
    (NMat.symm_sandwich _ _ rfl (NMat.symm_slice_diag hs 0 3))
    (control_noise_symm p s delta_theta odemetry)

/-- Entries outside the written rows/columns are unchanged by the
landmark-landmark covariance loop. -/
theorem lm_cov_loop_entry_out (lpj : NMat) (n : ℕ) (hlpjr : lpj.rows = 2) :
    ∀ (ks : List ℕ) (cov : NMat) (i j : ℕ),
      (¬(n ≤ i ∧ i < n + 2) ∨ ∀ k ∈ ks, ¬(ekf_index k ≤ j ∧ j < ekf_index k + 2)) →
      (lm_cov_loop lpj n cov ks).entry i j = cov.entry i j
  | [], cov, i, j, _ => rfl
  | k :: rest, cov, i, j, h => by
    rw [lm_cov_loop]
    rw [lm_cov_loop_entry_out lpj n hlpjr rest _ i j ?side]
    · refine NMat.setBlock_entry_out ?_
      rcases h with h | h
      · simp only [NMat.matmul_rows, hlpjr]
        intro hmem
        exact h ⟨hmem.1, hmem.2.1⟩
      · have := h k (by simp)
        simp only [NMat.matmul_cols, NMat.slice_cols]
        intro hmem
        exact this ⟨hmem.2.2.1, by omega⟩
    case side =>
      rcases h with h | h
      · exact Or.inl h
      · exact Or.inr fun k hk => h k (by simp [hk])

/-- Inserting one landmark's covariance blocks preserves symmetry: the
self block is a symmetric sandwich, and each off-diagonal strip is written
together with its explicitly mirrored transpose. -/
theorem cov_insert_symm (cov lpj lrbj err : NMat) (lprev : ℕ)
    (hlpjr : lpj.rows = 2) (hlpjc : lpj.cols = 3)
    (hlrbjr : lrbj.rows = 2) (herrC : err.cols = lrbj.cols)
    (herr : err.Symm) (hcov : cov.Symm) :
    (((lm_cov_loop lpj (3 + 2 * lprev)
        (((cov.setBlock (3 + 2 * lprev) (3 + 2 * lprev)
            (((lpj.matmul (cov.slice 0 3 0 3)).matmul lpj.transpose).add
              ((lrbj.matmul err).matmul lrbj.transpose))).setBlock 0 (3 + 2 * lprev)
            (((cov.setBlock (3 + 2 * lprev) (3 + 2 * lprev)
                (((lpj.matmul (cov.slice 0 3 0 3)).matmul lpj.transpose).add
                  ((lrbj.matmul err).matmul lrbj.transpose))).slice 0 3 0 3).matmul
              lpj.transpose)).setBlock (3 + 2 * lprev) 0
          (((((cov.setBlock (3 + 2 * lprev) (3 + 2 * lprev)
              (((lpj.matmul (cov.slice 0 3 0 3)).matmul lpj.transpose).add
                ((lrbj.matmul err).matmul lrbj.transpose))).setBlock 0 (3 + 2 * lprev)
              (((cov.setBlock (3 + 2 * lprev) (3 + 2 * lprev)
                  (((lpj.matmul (cov.slice 0 3 0 3)).matmul lpj.transpose).add
                    ((lrbj.matmul err).matmul lrbj.transpose))).slice 0 3 0 3).matmul
                lpj.transpose))).slice 0 3 (3 + 2 * lprev)
            (3 + 2 * lprev + 2)).transpose))
        (List.range lprev)).setBlock 3 (3 + 2 * lprev)
      ((lm_cov_loop lpj (3 + 2 * lprev)
        (((cov.setBlock (3 + 2 * lprev) (3 + 2 * lprev)
            (((lpj.matmul (cov.slice 0 3 0 3)).matmul lpj.transpose).add
              ((lrbj.matmul err).matmul lrbj.transpose))).setBlock 0 (3 + 2 * lprev)
            (((cov.setBlock (3 + 2 * lprev) (3 + 2 * lprev)
                (((lpj.matmul (cov.slice 0 3 0 3)).matmul lpj.transpose).add
                  ((lrbj.matmul err).matmul lrbj.transpose))).slice 0 3 0 3).matmul
              lpj.transpose)).setBlock (3 + 2 * lprev) 0
          (((((cov.setBlock (3 + 2 * lprev) (3 + 2 * lprev)
              (((lpj.matmul (cov.slice 0 3 0 3)).matmul lpj.transpose).add
                ((lrbj.matmul err).matmul lrbj.transpose))).setBlock 0 (3 + 2 * lprev)
              (((cov.setBlock (3 + 2 * lprev) (3 + 2 * lprev)
                  (((lpj.matmul (cov.slice 0 3 0 3)).matmul lpj.transpose).add
                    ((lrbj.matmul err).matmul lrbj.transpose))).slice 0 3 0 3).matmul
                lpj.transpose))).slice 0 3 (3 + 2 * lprev)
            (3 + 2 * lprev + 2)).transpose))
        (List.range lprev)).slice (3 + 2 * lprev) (3 + 2 * lprev + 2) 3
        (3 + 2 * lprev)).transpose)).Symm := by
  set n := 3 + 2 * lprev with hn
  set Sb := ((lpj.matmul (cov.slice 0 3 0 3)).matmul lpj.transpose).add
    ((lrbj.matmul err).matmul lrbj.transpose) with hSbdef
  have hSb : Sb.Symm :=
    NMat.symm_add
      (NMat.symm_sandwich _ _ (by simp [hlpjc]) (NMat.symm_slice_diag hcov 0 3))
      (NMat.symm_sandwich _ _ herrC herr)
  have hSbr : Sb.rows = 2 := by simp [hSbdef, hlpjr]
  have hSbc : Sb.cols = 2 := by simp [hSbdef, hlpjr]
  set c1 := cov.setBlock n n Sb with hc1
  set B2 := (c1.slice 0 3 0 3).matmul lpj.transpose with hB2
  have hB2r : B2.rows = 3 := by simp [hB2]
  have hB2c : B2.cols = 2 := by simp [hB2, hlpjr]
  set c2 := c1.setBlock 0 n B2 with hc2
  set T3 := (c2.slice 0 3 n (n + 2)).transpose with hT3
  have hT3r : T3.rows = 2 := by simp [hT3]
  have hT3c : T3.cols = 3 := by simp [hT3]
  set c3 := c2.setBlock n 0 T3 with hc3
  set c4 := lm_cov_loop lpj n c3 (List.range lprev) with hc4
  set T5 := (c4.slice n (n + 2) 3 n).transpose with hT5
  have hT5r : T5.rows = n - 3 := by simp [hT5]
  have hT5c : T5.cols = 2 := by simp [hT5]
  have hn3 : 3 ≤ n := by omega
  -- entry characterizations
  have he1 : ∀ i j, c1.entry i j =
      if n ≤ i ∧ i < n + 2 ∧ n ≤ j ∧ j < n + 2 then Sb.entry (i - n) (j - n)
      else cov.entry i j := by
    intro i j
    rw [hc1]
    by_cases h : n ≤ i ∧ i < n + 2 ∧ n ≤ j ∧ j < n + 2
    · rw [if_pos h]
      exact NMat.setBlock_entry_in h.1 (by omega) h.2.2.1 (by omega)
    · rw [if_neg h]
      refine NMat.setBlock_entry_out ?_
      rw [hSbr, hSbc]
      exact h
  have he2 : ∀ i j, c2.entry i j =
      if i < 3 ∧ n ≤ j ∧ j < n + 2 then B2.entry i (j - n)
      else c1.entry i j := by
    intro i j
    rw [hc2]
    by_cases h : i < 3 ∧ n ≤ j ∧ j < n + 2
    · rw [if_pos h]
      rw [NMat.setBlock_entry_in (by omega) (by omega) h.2.1 (by omega)]
      simp
    · rw [if_neg h]
      refine NMat.setBlock_entry_out ?_
      rw [hB2r, hB2c]
      omega
  have he3 : ∀ i j, c3.entry i j =
      if n ≤ i ∧ i < n + 2 ∧ j < 3 then c2.entry j i
      else c2.entry i j := by
    intro i j
    rw [hc3]
    by_cases h : n ≤ i ∧ i < n + 2 ∧ j < 3
    · rw [if_pos h]
      rw [NMat.setBlock_entry_in h.1 (by omega) (by omega) (by omega)]
      rw [hT3, NMat.transpose_entry, NMat.slice_entry]
      congr 1 <;> omega
    · rw [if_neg h]
      refine NMat.setBlock_entry_out ?_
      rw [hT3r, hT3c]
      omega
  have he4out : ∀ i j, (¬(n ≤ i ∧ i < n + 2) ∨ j < 3 ∨ n ≤ j) →
      c4.entry i j = c3.entry i j := by
    intro i j h
    rw [hc4]
    refine lm_cov_loop_entry_out lpj n hlpjr _ _ i j ?_
    rcases h with h | h | h
    · exact Or.inl h
    · refine Or.inr fun k _ => ?_
      unfold ekf_index
      omega
    · refine Or.inr fun k hk => ?_
      rw [List.mem_range] at hk
      unfold ekf_index
      omega
  have he5 : ∀ i j, (c4.setBlock 3 n T5).entry i j =
      if 3 ≤ i ∧ i < n ∧ n ≤ j ∧ j < n + 2 then c4.entry j i
      else c4.entry i j := by
    intro i j
    by_cases h : 3 ≤ i ∧ i < n ∧ n ≤ j ∧ j < n + 2
    · rw [if_pos h]
      rw [NMat.setBlock_entry_in h.1 (by omega) h.2.2.1 (by omega)]
      rw [hT5, NMat.transpose_entry, NMat.slice_entry]
      congr 1 <;> omega
    · rw [if_neg h]
      refine NMat.setBlock_entry_out ?_
      rw [hT5r, hT5c]
      omega
  intro i j
  rw [he5 i j, he5 j i]
  by_cases hP5 : 3 ≤ i ∧ i < n ∧ n ≤ j ∧ j < n + 2
  · rw [if_pos hP5, if_neg (by omega)]
  by_cases hP4 : n ≤ i ∧ i < n + 2 ∧ 3 ≤ j ∧ j < n
  · rw [if_neg (by omega), if_pos (by omega)]
  rw [if_neg hP5, if_neg (by omega)]
  -- now neither index pair hits the mirrored strip; case on the new rows/cols
  by_cases hiC : n ≤ i ∧ i < n + 2
  · by_cases hjC : n ≤ j ∧ j < n + 2
    · -- both in the self block
      rw [he4out i j (Or.inr (Or.inr hjC.1)), he4out j i (Or.inr (Or.inr hiC.1))]
      rw [he3 i j, he3 j i, if_neg (by omega), if_neg (by omega)]
      rw [he2 i j, he2 j i, if_neg (by omega), if_neg (by omega)]
      rw [he1 i j, he1 j i, if_pos ⟨hiC.1, hiC.2, hjC.1, hjC.2⟩,
        if_pos ⟨hjC.1, hjC.2, hiC.1, hiC.2⟩]
      exact hSb _ _
    · -- i in the new rows, j < 3 (the j ∈ [3, n) and n+2 ≤ j cases are split)
      by_cases hj3 : j < 3
      · rw [he4out i j (Or.inr (Or.inl hj3)), he4out j i (Or.inl (by omega))]
        rw [he3 i j, he3 j i, if_pos ⟨hiC.1, hiC.2, hj3⟩, if_neg (by omega)]
      · -- j ≥ n + 2 (j ∈ [3, n) was case hP4)
        have hj : n + 2 ≤ j := by omega
        rw [he4out i j (Or.inr (Or.inr (by omega))), he4out j i (Or.inl (by omega))]
        rw [he3 i j, he3 j i, if_neg (by omega), if_neg (by omega)]
        rw [he2 i j, he2 j i, if_neg (by omega), if_neg (by omega)]
        rw [he1 i j, he1 j i, if_neg (by omega), if_neg (by omega)]
        exact hcov i j
  · by_cases hjC : n ≤ j ∧ j < n + 2
    · by_cases hi3 : i < 3
      · rw [he4out i j (Or.inl (by omega)), he4out j i (Or.inr (Or.inl hi3))]
        rw [he3 i j, he3 j i, if_neg (by omega), if_pos ⟨hjC.1, hjC.2, hi3⟩]
      · have hi : n + 2 ≤ i := by omega
        rw [he4out i j (Or.inl (by omega)), he4out j i (Or.inr (Or.inr (by omega)))]
        rw [he3 i j, he3 j i, if_neg (by omega), if_neg (by omega)]
        rw [he2 i j, he2 j i, if_neg (by omega), if_neg (by omega)]
        rw [he1 i j, he1 j i, if_neg (by omega), if_neg (by omega)]
        exact hcov i j
    · -- neither index in the new rows/cols: all writes miss
      rw [he4out i j (Or.inl hiC), he4out j i (Or.inl hjC)]
      rw [he3 i j, he3 j i, if_neg (by omega), if_neg (by omega)]
      rw [he2 i j, he2 j i, if_neg (by omega), if_neg (by omega)]
      rw [he1 i j, he1 j i, if_neg (by omega), if_neg (by omega)]
      exact hcov i j

theorem lm_cov_loop_rows (lpj : NMat) (n : ℕ) :
    ∀ (ks : List ℕ) (cov : NMat), (lm_cov_loop lpj n cov ks).rows = cov.rows
  | [], _ => rfl
  | _ :: rest, cov => by
    rw [lm_cov_loop, lm_cov_loop_rows lpj n rest]
    rfl

theorem lm_cov_loop_cols (lpj : NMat) (n : ℕ) :
    ∀ (ks : List ℕ) (cov : NMat), (lm_cov_loop lpj n cov ks).cols = cov.cols
  | [], _ => rfl
  | _ :: rest, cov => by
    rw [lm_cov_loop, lm_cov_loop_cols lpj n rest]
    rfl

theorem landmark_error_mat_symm (p : EKFParams) (px py lx ly : ℝ) :
    (landmark_error_mat p px py lx ly).Symm := by
  intro i j
  simp only [landmark_error_mat]
  split_ifs <;> first | rfl | (exfalso; omega)

/-- The per-landmark body of `__add_landmarks`, spelled out. -/
theorem add_landmarks_loop_wf (p : EKFParams) (px py : ℝ) (lpj lrbj : NMat)
    (hlpjr : lpj.rows = 2) (hlpjc : lpj.cols = 3) (hlrbjr : lrbj.rows = 2)
    (hlrbjc : lrbj.cols = 2) :
    ∀ (lms : List ObsLandmark) (s : EKFState),
      s.landmark_types.length = s.landmark_counts.length →
      s.system_state.rows = ekf_index s.landmark_types.length + 2 * lms.length →
      s.system_state.cols = 1 →
      s.covariance.rows = ekf_index s.landmark_types.length + 2 * lms.length →
      s.covariance.cols = ekf_index s.landmark_types.length + 2 * lms.length →
      s.covariance.Symm →
      EKFWellFormed (add_landmarks_loop p px py lpj lrbj s lms)
  | [], s, h1, h2, h3, h4, h5, h6 => by
    rw [add_landmarks_loop]
    exact ⟨h1, by simpa using h2, h3, by simpa using h4, by simpa using h5, h6⟩
  | lm :: rest, s, h1, h2, h3, h4, h5, h6 => by
    rw [add_landmarks_loop]
    refine add_landmarks_loop_wf p px py lpj lrbj hlpjr hlpjc hlrbjr hlrbjc rest _
      ?_ ?_ ?_ ?_ ?_ ?_
    · simpa using h1
    · simp only [NMat.setEntry_rows, List.length_append, List.length_cons,
        List.length_nil, ekf_index] at h2 ⊢
      omega
    · exact h3
    · simp only [NMat.setBlock_rows, lm_cov_loop_rows, NMat.setBlock_rows,
        List.length_append, List.length_cons, List.length_nil, ekf_index] at h4 ⊢
      omega
    · simp only [NMat.setBlock_cols, lm_cov_loop_cols, NMat.setBlock_cols,
        List.length_append, List.length_cons, List.length_nil, ekf_index] at h5 ⊢
      omega
    · exact cov_insert_symm s.covariance lpj lrbj
        (landmark_error_mat p px py lm.x lm.y) s.landmark_types.length
        hlpjr hlpjc hlrbjr (by rw [hlrbjc]; rfl)
        (landmark_error_mat_symm p px py lm.x lm.y) h6

/-- Zero-extension by `__resize` keeps `Σ` symmetric. -/
theorem EKF_resize_symm (s : EKFState) (new_size : ℕ)
    (h : s.covariance.Symm) : (EKF_resize s new_size).covariance.Symm := by
  simp only [EKF_resize]
  split_ifs
  · exact h
  · refine NMat.symm_setBlock_diag 0 (by simp) (NMat.symm_slice_diag h _ _) ?_
    intro i j
    rfl

theorem EKF_resize_wf (s : EKFState) (new_size : ℕ)
    (hge : ekf_index s.landmark_types.length ≤ new_size)
    (h : EKFWellFormed s) :
    (EKF_resize s new_size).landmark_types = s.landmark_types ∧
    (EKF_resize s new_size).landmark_counts = s.landmark_counts ∧
    (EKF_resize s new_size).system_state.rows = new_size ∧
    (EKF_resize s new_size).system_state.cols = 1 ∧
    (EKF_resize s new_size).covariance.rows = new_size ∧
    (EKF_resize s new_size).covariance.cols = new_size ∧
    (EKF_resize s new_size).covariance.Symm := by
  obtain ⟨h1, h2, h3, h4, h5, h6⟩ := h
  have hsymm := EKF_resize_symm s new_size h6
  simp only [EKF_resize] at hsymm ⊢
  split_ifs at hsymm ⊢ with hEq
  · exact ⟨rfl, rfl, by rw [h2, EKF_dim, hEq], h3, by rw [h4, EKF_dim, hEq],
      by rw [h5, EKF_dim, hEq], h6⟩
  · exact ⟨rfl, rfl, by simp, by simp, by simp, by simp, hsymm⟩

/-- `__add_landmarks` preserves the EKF invariants. -/
theorem add_landmarks_wf (p : EKFParams) (s : EKFState)
    (new_landmarks : List ObsLandmark) (odemetry : ℝ) (h : EKFWellFormed s) :
    EKFWellFormed (add_landmarks p s new_landmarks odemetry) := by
  unfold add_landmarks
  have hr := EKF_resize_wf s
    (ekf_index s.landmark_types.length + 2 * new_landmarks.length)
    (by omega) h
  refine add_landmarks_loop_wf p _ _ _ _ rfl rfl rfl rfl new_landmarks _
    ?_ ?_ ?_ ?_ ?_ ?_
  · rw [hr.1, hr.2.1]
    exact h.1
  · rw [hr.2.2.1, hr.1]
  · exact hr.2.2.2.1
  · rw [hr.2.2.2.2.1, hr.1]
  · rw [hr.2.2.2.2.2.1, hr.1]
  · exact hr.2.2.2.2.2.2

/-- The Kalman state-update loop preserves the EKF invariants: it only
adds to `μ` (same shape), bumps sighting counters in place, and leaves `Σ`
untouched. -/
theorem update_state_loop_wf (p : EKFParams) (px py ptheta : ℝ) :
    ∀ (l : List (ObsLandmark × ℕ)) (s s' : EKFState), EKFWellFormed s →
      update_state_loop p px py ptheta s l = .ok s' → EKFWellFormed s'
  | [], s, s', h, heq => by
    rw [update_state_loop] at heq
    cases heq
    exact h
  | (ob, idx) :: rest, s, s', h, heq => by
    rw [update_state_loop] at heq
    obtain ⟨h1, h2, h3, h4, h5, h6⟩ := h
    have hwf1 : EKFWellFormed
        ⟨s.landmark_types,
          s.landmark_counts.set idx (s.landmark_counts.getD idx 0 + 1),
          s.system_state, s.covariance⟩ :=
      ⟨by simpa using h1, h2, h3, h4, h5, h6⟩
    split_ifs at heq with hth
    · exact update_state_loop_wf p px py ptheta rest _ s' hwf1 heq
    · try dsimp only at heq
      split at heq
      · exact absurd heq (by simp)
      · try dsimp only at heq
        split at heq
        · exact absurd heq (by simp)
        · try dsimp only at heq
          split at heq
          · exact absurd heq (by simp)
          · refine update_state_loop_wf p px py ptheta rest _ s' ?_ heq
            exact ⟨by simpa using h1, h2, h3, h4, h5, h6⟩

/-- `__update_system_state` preserves the EKF invariants. -/
theorem update_system_state_wf (p : EKFParams) (s : EKFState)
    (associated : List (ObsLandmark × ℕ)) (s' : EKFState)
    (h : EKFWellFormed s)
    (heq : update_system_state p s associated = .ok s') : EKFWellFormed s' :=
  update_state_loop_wf p _ _ _ associated s s' h heq

/-- `EKF.update` preserves the invariants checked by
`EKF.__assert_invariants`: this is the statement that those assertions
always pass on a well-formed state when the update returns normally. -/
theorem EKF_update_wf (p : EKFParams) (s : EKFState) (delta_theta odemetry : ℝ)
    (observed : List ObsLandmark) (s' : EKFState) (h : EKFWellFormed s)
    (heq : EKF_update p s delta_theta odemetry observed = .ok s') :
    EKFWellFormed s' := by
  unfold EKF_update at heq
  obtain ⟨h1, h2, h3, h4, h5, h6⟩ := h
  have hwf2 : EKFWellFormed (EKF_predict p s delta_theta odemetry) := by
    unfold EKF_predict
    refine ⟨h1, h2, h3, h4, h5, ?_⟩
    exact update_position_covariance_symm p _ delta_theta odemetry h6
  try dsimp only at heq
  split at heq
  · exact absurd heq (by simp)
  · split at heq
    · exact absurd heq (by simp)
    · cases heq
      exact add_landmarks_wf p _ _ odemetry
        (update_system_state_wf p _ _ _ hwf2 (by assumption))

/-- The initial EKF state is well-formed. -/
theorem EKF_init_wf (p : EKFParams) : EKFWellFormed (EKF_init p) := by
  refine ⟨rfl, rfl, rfl, rfl, rfl, ?_⟩
  intro i j
  simp only [EKF_init, NMat.scale, NMat.eye]
  by_cases h : i = j
  · rw [h]
  · rw [if_neg h, if_neg fun hji => h hji.symm]

/-- C8: after any finite sequence of `EKF.update` calls that return
normally, with `L` landmarks, the two bookkeeping lists have length `L`,
the state vector has shape `(3+2L)×1`, the covariance is square of
dimension `3+2L`, and the covariance equals its transpose exactly (hence
within floating tolerance). -/
theorem ekf_shape_invariants (p : EKFParams) (inputs : List UpdateInput)
    (s' : EKFState) (h : run_updates p inputs = .ok s') : EKFWellFormed s' := by
  suffices H : ∀ (l : List UpdateInput) (s0 : EKFState), EKFWellFormed s0 →
      l.foldlM (fun s i => EKF_update p s i.delta_theta i.odemetry i.observed) s0
        = .ok s' → EKFWellFormed s' by
    exact H inputs (EKF_init p) (EKF_init_wf p) h
  intro l
  induction l with
  | nil =>
    intro s0 h0 heq
    cases heq
    exact h0
  | cons a t ih =>
    intro s0 h0 heq
    rw [List.foldlM_cons] at heq
    cases hstep : EKF_update p s0 a.delta_theta a.odemetry a.observed with
    | error e => rw [hstep] at heq; exact Except.noConfusion heq
    | ok s1 =>
      rw [hstep] at heq
      exact ih s1 (EKF_update_wf p s0 _ _ _ s1 h0 hstep) heq

/-- Witness for C8: the empty update sequence returns the initial state,
which satisfies the invariants. -/
theorem ekf_shape_invariants_witness :
    EKFWellFormed (EKF_init ⟨0.95, 0.05, 0.01, π / 180, 1, 5⟩) :=
  ekf_shape_invariants ⟨0.95, 0.05, 0.01, π / 180, 1, 5⟩ []
    (EKF_init ⟨0.95, 0.05, 0.01, π / 180, 1, 5⟩) rfl

/-! ### Exceptions escaping the association step

`EKF.__associate_landmarks` calls `np.linalg.inv` (ekf.py line 158) and,
through `__landmark_innovation_covariance`, the division by `r` of
`__measurement_model_jacobian` (lines 180-190), with no `try` anywhere on
the path up through `EKF.update`.
-/

/-- If the measurement-model Jacobian for the closest candidate raises,
the association step propagates the exception (single observation). -/
theorem associate_single_mmj_error (p : EKFParams) (s : EKFState)
    (ob : ObsLandmark) (d : ℝ) (e : PyErr)
    (hL : s.landmark_types.length ≠ 0)
    (hd : ekf_landmark_dist s (closest_landmark_index s ob) ob = some d)
    (hmmj : measurement_model_jacobian s (closest_landmark_index s ob) = .error e) :
    associate_landmarks p s [ob] = .error e := by
  unfold associate_landmarks
  rw [if_neg hL, associate_loop]
  dsimp only
  rw [hd]
  dsimp only
  rw [landmark_innovation_covariance, hmmj]
  rfl

/-- If the innovation covariance of the closest candidate is computed but
singular, `np.linalg.inv` raises `LinAlgError` and the association step
propagates it (single observation). -/
theorem associate_single_singular (p : EKFParams) (s : EKFState)
    (ob : ObsLandmark) (d : ℝ) (S : NMat)
    (hL : s.landmark_types.length ≠ 0)
    (hd : ekf_landmark_dist s (closest_landmark_index s ob) ob = some d)
    (hlic : landmark_innovation_covariance s (closest_landmark_index s ob)
      (landmark_error_mat p (s.system_state.entry 0 0) (s.system_state.entry 1 0)
        (ekf_landmark s (closest_landmark_index s ob)).1
        (ekf_landmark s (closest_landmark_index s ob)).2.1) = .ok S)
    (hdet : S.entry 0 0 * S.entry 1 1 - S.entry 0 1 * S.entry 1 0 = 0) :
    associate_landmarks p s [ob] = .error .LinAlgErrorSingular := by
  unfold associate_landmarks
  rw [if_neg hL, associate_loop]
  dsimp only
  rw [hd]
  dsimp only
  rw [hlic]
  dsimp only
  rw [np_inv_2x2]
  try dsimp only
  rw [if_pos hdet]

/-- An exception raised during association escapes `EKF.update`. -/
theorem EKF_update_assoc_error (p : EKFParams) (s : EKFState)
    (delta_theta odemetry : ℝ) (observed : List ObsLandmark) (e : PyErr)
    (h : associate_landmarks p (EKF_predict p s delta_theta odemetry) observed
      = .error e) :
    EKF_update p s delta_theta odemetry observed = .error e := by
  unfold EKF_update
  dsimp only
  rw [h]

/-- C3 (amended): during `EKF.update`, if the innovation covariance `S`
for the candidate associated landmark is singular (zero determinant),
`np.linalg.inv` raises `LinAlgError` and the exception escapes the update
call; the observation is not appended as a new landmark. -/
theorem ekf_singular_innovation_raises (p : EKFParams) (s : EKFState)
    (delta_theta odemetry : ℝ) (ob : ObsLandmark) (d : ℝ) (S : NMat)
    (hL : (EKF_predict p s delta_theta odemetry).landmark_types.length ≠ 0)
    (hd : ekf_landmark_dist (EKF_predict p s delta_theta odemetry)
      (closest_landmark_index (EKF_predict p s delta_theta odemetry) ob) ob
      = some d)
    (hlic : landmark_innovation_covariance (EKF_predict p s delta_theta odemetry)
      (closest_landmark_index (EKF_predict p s delta_theta odemetry) ob)
      (landmark_error_mat p
        ((EKF_predict p s delta_theta odemetry).system_state.entry 0 0)
        ((EKF_predict p s delta_theta odemetry).system_state.entry 1 0)
        (ekf_landmark (EKF_predict p s delta_theta odemetry)
          (closest_landmark_index (EKF_predict p s delta_theta odemetry) ob)).1
        (ekf_landmark (EKF_predict p s delta_theta odemetry)
          (closest_landmark_index (EKF_predict p s delta_theta odemetry) ob)).2.1)
      = .ok S)
    (hdet : S.entry 0 0 * S.entry 1 1 - S.entry 0 1 * S.entry 1 0 = 0) :
    EKF_update p s delta_theta odemetry [ob] = .error .LinAlgErrorSingular :=
  EKF_update_assoc_error p s delta_theta odemetry [ob] .LinAlgErrorSingular
    (associate_single_singular p _ ob d S hL hd hlic hdet)

/-! ### A concrete run with a singular innovation covariance

With `initial_uncertainty = 0` and all noises zero, a fresh `EKF` that
adds the landmark `(20, 0, kind 7)` via `update(0, 0, [(20, 0, 7)])`
reaches the state below (all-zero covariance).  Re-observing the same
landmark makes `S = H Σ Hᵀ + R = 0`, and `np.linalg.inv(S)` raises.
-/

/-- Parameters with zero initial uncertainty and zero noises. -/
def cexParams : EKFParams := ⟨0, 0, 0, 0, 1, 5⟩

/-- One landmark of kind 7 at `(20, 0)`, pose `(0,0,0)`, zero covariance. -/
def cexState : EKFState :=
  ⟨[7], [1], ⟨5, 1, fun i _ => if i = 3 then 20 else 0⟩, ⟨5, 5, fun _ _ => 0⟩⟩

/-- A re-observation of the stored landmark, exactly at its position. -/
def cexObs : ObsLandmark := ⟨20, 0, 7⟩

theorem cex_pred_types :
    (EKF_predict cexParams cexState 0 0).landmark_types = [7] := rfl

theorem cex_pred_cov :
    ∀ i j, (EKF_predict cexParams cexState 0 0).covariance.entry i j = 0 := by
  intro i j
  simp [EKF_predict, update_position_covariance, prediction_model_jacobian,
    control_noise, cexParams, cexState, NMat.setBlock, NMat.matmul, NMat.add,
    NMat.slice, NMat.transpose]

theorem cex_pred_mu0 :
    (EKF_predict cexParams cexState 0 0).system_state.entry 0 0 = 0 := by
  simp [EKF_predict, update_position_covariance, pos_after_move, cexState,
    NMat.setBlock]

theorem cex_pred_mu1 :
    (EKF_predict cexParams cexState 0 0).system_state.entry 1 0 = 0 := by
  simp [EKF_predict, update_position_covariance, pos_after_move, cexState,
    NMat.setBlock]

theorem cex_pred_mu3 :
    (EKF_predict cexParams cexState 0 0).system_state.entry 3 0 = 20 := by
  simp [EKF_predict, update_position_covariance, pos_after_move, cexState,
    NMat.setBlock]

theorem cex_pred_mu4 :
    (EKF_predict cexParams cexState 0 0).system_state.entry 4 0 = 0 := by
  simp [EKF_predict, update_position_covariance, pos_after_move, cexState,
    NMat.setBlock]

theorem cex_ci :
    closest_landmark_index (EKF_predict cexParams cexState 0 0) cexObs = 0 := by
  rw [closest_landmark_index, cex_pred_types]
  simp only [List.length_cons, List.length_nil, List.range_succ, List.range_zero,
    List.nil_append, List.foldl_cons, List.foldl_nil, ite_self]

theorem cex_hd :
    ekf_landmark_dist (EKF_predict cexParams cexState 0 0) 0 cexObs = some 0 := by
  rw [ekf_landmark_dist]
  have hland : ekf_landmark (EKF_predict cexParams cexState 0 0) 0 = (20, 0, 7) := by
    rw [ekf_landmark, cex_pred_types]
    rw [show ekf_index 0 = 3 from rfl]
    rw [cex_pred_mu3, cex_pred_mu4]
    rfl
  rw [hland]
  norm_num [cexObs]

/-- The per-landmark error matrix is identically zero under `cexParams`
(zero range and bearing noise). -/
theorem cex_err_zero (a b c d : ℝ) :
    ∀ i j, (landmark_error_mat cexParams a b c d).entry i j = 0 := by
  intro i j
  simp only [landmark_error_mat, cexParams]
  split_ifs <;> simp

/-- A sandwich with an identically zero middle factor is zero. -/
theorem sandwich_zero (A P B : NMat) (hP : ∀ i j, P.entry i j = 0) :
    ∀ i j, ((A.matmul P).matmul B).entry i j = 0 := by
  intro i j
  simp [NMat.matmul, hP]

/-- The innovation covariance of the re-observation is computed (the range
`r = 20` is nonzero) and is singular. -/
theorem cex_lic : ∃ S,
    landmark_innovation_covariance (EKF_predict cexParams cexState 0 0)
      (closest_landmark_index (EKF_predict cexParams cexState 0 0) cexObs)
      (landmark_error_mat cexParams
        ((EKF_predict cexParams cexState 0 0).system_state.entry 0 0)
        ((EKF_predict cexParams cexState 0 0).system_state.entry 1 0)
        (ekf_landmark (EKF_predict cexParams cexState 0 0)
          (closest_landmark_index (EKF_predict cexParams cexState 0 0) cexObs)).1
        (ekf_landmark (EKF_predict cexParams cexState 0 0)
          (closest_landmark_index (EKF_predict cexParams cexState 0 0) cexObs)).2.1)
      = .ok S ∧ S.entry 0 0 * S.entry 1 1 - S.entry 0 1 * S.entry 1 0 = 0 := by
  rw [cex_ci, landmark_innovation_covariance]
  cases hm : measurement_model_jacobian (EKF_predict cexParams cexState 0 0) 0 with
  | error e =>
    exfalso
    rw [measurement_model_jacobian] at hm
    have hland : ekf_landmark (EKF_predict cexParams cexState 0 0) 0 = (20, 0, 7) := by
      rw [ekf_landmark, cex_pred_types]
      rw [show ekf_index 0 = 3 from rfl]
      rw [cex_pred_mu3, cex_pred_mu4]
      rfl
    rw [hland] at hm
    dsimp only at hm
    rw [cex_pred_mu0, cex_pred_mu1] at hm
    split_ifs at hm with hzero
    have h400 : ((0:ℝ) - 20) ^ 2 + (0 - 0) ^ 2 = 400 := by norm_num
    rw [h400] at hzero
    have : (400:ℝ) ≤ 0 := Real.sqrt_eq_zero'.mp hzero
    norm_num at this
  | ok M =>
    simp only [Except.map]
    refine ⟨_, rfl, ?_⟩
    have h1 := sandwich_zero M
      (EKF_predict cexParams cexState 0 0).covariance M.transpose cex_pred_cov
    have h2 := sandwich_zero (NMat.eye 2) _ (NMat.eye 2).transpose
      (cex_err_zero ((EKF_predict cexParams cexState 0 0).system_state.entry 0 0)
        ((EKF_predict cexParams cexState 0 0).system_state.entry 1 0)
        (ekf_landmark (EKF_predict cexParams cexState 0 0) 0).1
        (ekf_landmark (EKF_predict cexParams cexState 0 0) 0).2.1)
    simp only [NMat.add, h1, h2]
    norm_num

/-- Counterexample for C3: at the concrete state `cexState` (reachable with
zero initial uncertainty and zero noises) and the re-observation `cexObs`,
the candidate's innovation covariance `S` is computed and singular, yet
`EKF.update` raises `LinAlgError` instead of treating the observation as a
new landmark. -/
theorem ekf_singular_innovation_counterexample :
    (∃ S, landmark_innovation_covariance (EKF_predict cexParams cexState 0 0)
        (closest_landmark_index (EKF_predict cexParams cexState 0 0) cexObs)
        (landmark_error_mat cexParams
          ((EKF_predict cexParams cexState 0 0).system_state.entry 0 0)
          ((EKF_predict cexParams cexState 0 0).system_state.entry 1 0)
          (ekf_landmark (EKF_predict cexParams cexState 0 0)
            (closest_landmark_index (EKF_predict cexParams cexState 0 0) cexObs)).1
          (ekf_landmark (EKF_predict cexParams cexState 0 0)
            (closest_landmark_index (EKF_predict cexParams cexState 0 0) cexObs)).2.1)
        = .ok S ∧ S.entry 0 0 * S.entry 1 1 - S.entry 0 1 * S.entry 1 0 = 0) ∧
    EKF_update cexParams cexState 0 0 [cexObs] = .error .LinAlgErrorSingular := by
  obtain ⟨S, hS, hdet⟩ := cex_lic
  refine ⟨⟨S, hS, hdet⟩, ?_⟩
  refine EKF_update_assoc_error cexParams cexState 0 0 [cexObs] _ ?_
  refine associate_single_singular cexParams _ cexObs 0 S ?_ ?_ hS hdet
  · rw [cex_pred_types]
    simp
  · rw [cex_ci]
    exact cex_hd

/-- Witness for C3 (amended) at the concrete singular-innovation run. -/
theorem ekf_singular_innovation_raises_witness :
    EKF_update cexParams cexState 0 0 [cexObs] = .error .LinAlgErrorSingular := by
  obtain ⟨S, hS, hdet⟩ := cex_lic
  refine ekf_singular_innovation_raises cexParams cexState 0 0 cexObs 0 S ?_ ?_ hS hdet
  · rw [cex_pred_types]
    simp
  · rw [cex_ci]
    exact cex_hd

/-! ### Division by `r = 0` in the measurement-model Jacobian

`min(range(L), key=dist)` scans left to right keeping the first strict
minimum, so when some stored landmark has the observed kind the selected
candidate's distance is finite, the Jacobian is computed, and its division
by `r` raises exactly when the candidate coincides with the estimated
robot position.
-/

/-- The fold implementing Python's `min` keeps a finite-distance candidate
whenever one has been seen. -/
theorem foldl_closest_some (s : EKFState) (ob : ObsLandmark) :
    ∀ (l : List ℕ) (b : ℕ),
      (ekf_landmark_dist s b ob ≠ none ∨ ∃ i ∈ l, ekf_landmark_dist s i ob ≠ none) →
      ekf_landmark_dist s
        (l.foldl (fun best i =>
          if optDistLt (ekf_landmark_dist s i ob) (ekf_landmark_dist s best ob)
          then i else best) b) ob ≠ none
  | [], b, h => by
    rcases h with h | ⟨i, hi, _⟩
    · exact h
    · simp at hi
  | a :: rest, b, h => by
    rw [List.foldl_cons]
    apply foldl_closest_some s ob rest
    by_cases hab : optDistLt (ekf_landmark_dist s a ob) (ekf_landmark_dist s b ob)
    · rw [if_pos hab]
      left
      cases hda : ekf_landmark_dist s a ob with
      | none => rw [hda] at hab; exact absurd hab (by simp [optDistLt])
      | some d => simp
    · rw [if_neg hab]
      rcases h with h | ⟨i, hi, hsome⟩
      · exact Or.inl h
      · rcases List.mem_cons.mp hi with heq | hmem
        · left
          cases hdb : ekf_landmark_dist s b ob with
          | none =>
            exfalso
            apply hab
            rw [hdb, ← heq]
            cases hda : ekf_landmark_dist s i ob with
            | none => exact absurd hda hsome
            | some d => exact trivial
          | some d => simp
        · exact Or.inr ⟨i, hmem, hsome⟩

/-- If a same-kind stored landmark exists, the closest candidate's
distance is finite. -/
theorem closest_dist_some (s : EKFState) (ob : ObsLandmark)
    (h : ∃ i, i < s.landmark_types.length ∧
      s.landmark_types.getD i 0 = ob.kind) :
    ekf_landmark_dist s (closest_landmark_index s ob) ob ≠ none := by
  obtain ⟨i, hi, hk⟩ := h
  apply foldl_closest_some
  right
  refine ⟨i, List.mem_range.mpr hi, ?_⟩
  simp only [ekf_landmark_dist, ekf_landmark, hk]
  simp

/-- C9: `EKF.update` divides by `r` without a guard in
`__measurement_model_jacobian`; when a stored landmark of the observed
kind exists, the update raises `ZeroDivisionError` exactly if the selected
candidate coincides with the estimated (post-prediction) robot position,
and for `r ≠ 0` the division branch returns the Jacobian normally. -/
theorem ekf_zero_range_division (p : EKFParams) (s : EKFState)
    (delta_theta odemetry : ℝ) (ob : ObsLandmark)
    (hk : ∃ i, i < (EKF_predict p s delta_theta odemetry).landmark_types.length ∧
      (EKF_predict p s delta_theta odemetry).landmark_types.getD i 0 = ob.kind) :
    (((ekf_landmark (EKF_predict p s delta_theta odemetry)
          (closest_landmark_index (EKF_predict p s delta_theta odemetry) ob)).1
        = (EKF_predict p s delta_theta odemetry).system_state.entry 0 0 ∧
      (ekf_landmark (EKF_predict p s delta_theta odemetry)
          (closest_landmark_index (EKF_predict p s delta_theta odemetry) ob)).2.1
        = (EKF_predict p s delta_theta odemetry).system_state.entry 1 0) →
      EKF_update p s delta_theta odemetry [ob] = .error .ZeroDivisionError) ∧
    (¬((ekf_landmark (EKF_predict p s delta_theta odemetry)
          (closest_landmark_index (EKF_predict p s delta_theta odemetry) ob)).1
        = (EKF_predict p s delta_theta odemetry).system_state.entry 0 0 ∧
      (ekf_landmark (EKF_predict p s delta_theta odemetry)
          (closest_landmark_index (EKF_predict p s delta_theta odemetry) ob)).2.1
        = (EKF_predict p s delta_theta odemetry).system_state.entry 1 0) →
      ∃ M, measurement_model_jacobian (EKF_predict p s delta_theta odemetry)
        (closest_landmark_index (EKF_predict p s delta_theta odemetry) ob) = .ok M) := by
  obtain ⟨i0, hi0, hk0⟩ := hk
  have hL : (EKF_predict p s delta_theta odemetry).landmark_types.length ≠ 0 := by
    omega
  have hsome := closest_dist_some (EKF_predict p s delta_theta odemetry) ob
    ⟨i0, hi0, hk0⟩
  obtain ⟨d, hd⟩ := Option.ne_none_iff_exists'.mp hsome
  constructor
  · intro ⟨hx, hy⟩
    refine EKF_update_assoc_error p s delta_theta odemetry [ob] _ ?_
    refine associate_single_mmj_error p _ ob d _ hL hd ?_
    rw [measurement_model_jacobian]
    rw [hx, hy]
    rw [if_pos (by simp [Real.sqrt_eq_zero'])]
  · intro hne
    rw [measurement_model_jacobian]
    rw [if_neg ?rne]
    · exact ⟨_, rfl⟩
    case rne =>
      intro hr0
      apply hne
      have harg := Real.sqrt_eq_zero'.mp hr0
      constructor
      · have h1 : ((EKF_predict p s delta_theta odemetry).system_state.entry 0 0 -
            (ekf_landmark (EKF_predict p s delta_theta odemetry)
              (closest_landmark_index (EKF_predict p s delta_theta odemetry) ob)).1) ^ 2
            = 0 := by
          nlinarith [sq_nonneg ((EKF_predict p s delta_theta odemetry).system_state.entry 0 0 -
            (ekf_landmark (EKF_predict p s delta_theta odemetry)
              (closest_landmark_index (EKF_predict p s delta_theta odemetry) ob)).1),
            sq_nonneg ((EKF_predict p s delta_theta odemetry).system_state.entry 1 0 -
            (ekf_landmark (EKF_predict p s delta_theta odemetry)
              (closest_landmark_index (EKF_predict p s delta_theta odemetry) ob)).2.1)]
        have := (pow_eq_zero_iff two_ne_zero).mp h1
        linarith [this]
      · have h2 : ((EKF_predict p s delta_theta odemetry).system_state.entry 1 0 -
            (ekf_landmark (EKF_predict p s delta_theta odemetry)
              (closest_landmark_index (EKF_predict p s delta_theta odemetry) ob)).2.1) ^ 2
            = 0 := by
          nlinarith [sq_nonneg ((EKF_predict p s delta_theta odemetry).system_state.entry 0 0 -
            (ekf_landmark (EKF_predict p s delta_theta odemetry)
              (closest_landmark_index (EKF_predict p s delta_theta odemetry) ob)).1),
            sq_nonneg ((EKF_predict p s delta_theta odemetry).system_state.entry 1 0 -
            (ekf_landmark (EKF_predict p s delta_theta odemetry)
              (closest_landmark_index (EKF_predict p s delta_theta odemetry) ob)).2.1)]
        have := (pow_eq_zero_iff two_ne_zero).mp h2
        linarith [this]

/-- One landmark of kind 7 stored exactly at the robot position `(0, 0)`. -/
def c9State : EKFState :=
  ⟨[7], [1], ⟨5, 1, fun _ _ => 0⟩, ⟨5, 5, fun _ _ => 0⟩⟩

/-- A second observation of kind 7 away from the robot. -/
def c9Obs : ObsLandmark := ⟨1, 0, 7⟩

theorem c9_pred_types :
    (EKF_predict cexParams c9State 0 0).landmark_types = [7] := rfl

theorem c9_pred_mu :
    (EKF_predict cexParams c9State 0 0).system_state.entry 0 0 = 0 ∧
    (EKF_predict cexParams c9State 0 0).system_state.entry 1 0 = 0 ∧
    (EKF_predict cexParams c9State 0 0).system_state.entry 3 0 = 0 ∧
    (EKF_predict cexParams c9State 0 0).system_state.entry 4 0 = 0 := by
  refine ⟨?_, ?_, ?_, ?_⟩ <;>
    simp [EKF_predict, update_position_covariance, pos_after_move, c9State,
      NMat.setBlock]

theorem c9_ci :
    closest_landmark_index (EKF_predict cexParams c9State 0 0) c9Obs = 0 := by
  rw [closest_landmark_index, c9_pred_types]
  simp only [List.length_cons, List.length_nil, List.range_succ, List.range_zero,
    List.nil_append, List.foldl_cons, List.foldl_nil, ite_self]

/-- Witness for C9: with a same-kind landmark stored exactly at the
estimated robot position, the update raises `ZeroDivisionError`. -/
theorem ekf_zero_range_division_witness :
    EKF_update cexParams c9State 0 0 [c9Obs] = .error .ZeroDivisionError := by
  obtain ⟨hm0, hm1, hm3, hm4⟩ := c9_pred_mu
  refine (ekf_zero_range_division cexParams c9State 0 0 c9Obs
    ⟨0, ?_, ?_⟩).1 ⟨?_, ?_⟩
  · rw [c9_pred_types]
    simp
  · rw [c9_pred_types]
    rfl
  · rw [c9_ci, ekf_landmark]
    rw [show ekf_index 0 = 3 from rfl]
    rw [hm3, hm0]
  · rw [c9_ci, ekf_landmark]
    rw [show ekf_index 0 + 1 = 4 from rfl]
    rw [hm4, hm1]

/-! ## Covariance growth under pure prediction

The top-left 3×3 block of `Σ` is written only by
`EKF.__update_position_covariance` (ekf.py lines 99-123): the Kalman step
writes only `μ`, and landmark insertion writes only rows and columns ≥ 3.
The reachable pose-covariance blocks are therefore the iterates of the
prediction update from `initial_uncertainty · I₃`, re-expressed here over
`Matrix (Fin 3) (Fin 3) ℝ` so that determinants are available.
-/

/-- The prediction-model Jacobian (ekf.py lines 105-111): the identity with
`[0][2] = -d·cos θ` and `[1][2] = d·sin θ`. -/
def prediction_jacobian_mat (odemetry pos_theta : ℝ) : Matrix (Fin 3) (Fin 3) ℝ :=
  Matrix.of fun i j =>
    if i = 0 ∧ j = 2 then -odemetry * Real.cos pos_theta
    else if i = 1 ∧ j = 2 then odemetry * Real.sin pos_theta
    else if i = j then 1 else 0

/-- The control noise matrix (ekf.py lines 113-123):
`odometry_noise · vᵢ vⱼ` for `v = (d·cos θ, d·sin θ, Δθ)`. -/
def control_noise_mat (noise delta_theta odemetry pos_theta : ℝ) :
    Matrix (Fin 3) (Fin 3) ℝ :=
  Matrix.of fun i j =>
    noise * ![odemetry * Real.cos pos_theta, odemetry * Real.sin pos_theta,
      delta_theta] i *
      ![odemetry * Real.cos pos_theta, odemetry * Real.sin pos_theta,
        delta_theta] j

/-- The pose-covariance update `Σ₃ ← F Σ₃ Fᵀ + Q` (ekf.py lines 99-103). -/
def update_position_covariance_mat (noise : ℝ) (P : Matrix (Fin 3) (Fin 3) ℝ)
    (delta_theta odemetry pos_theta : ℝ) : Matrix (Fin 3) (Fin 3) ℝ :=
  prediction_jacobian_mat odemetry pos_theta * P *
      (prediction_jacobian_mat odemetry pos_theta)ᵀ
    + control_noise_mat noise delta_theta odemetry pos_theta

/-- The pose-covariance blocks reachable from a fresh EKF: the initial
`u · I₃` and everything obtainable by prediction updates (the pose angle is
left arbitrary, which only enlarges the set). -/
inductive ReachablePoseCov (u noise : ℝ) : Matrix (Fin 3) (Fin 3) ℝ → Prop where
  | init : ReachablePoseCov u noise (u • 1)
  | step (P : Matrix (Fin 3) (Fin 3) ℝ) (delta_theta odemetry pos_theta : ℝ) :
      ReachablePoseCov u noise P →
      ReachablePoseCov u noise
        (update_position_covariance_mat noise P delta_theta odemetry pos_theta)

theorem control_noise_mat_posSemidef (noise delta_theta odemetry pos_theta : ℝ)
    (hn : 0 ≤ noise) :
    (control_noise_mat noise delta_theta odemetry pos_theta).PosSemidef := by
  set c : Fin 3 → ℝ := ![odemetry * Real.cos pos_theta,
    odemetry * Real.sin pos_theta, delta_theta] with hc
  constructor
  · ext i j
    simp only [control_noise_mat, Matrix.conjTranspose_apply, Matrix.of_apply,
      star_trivial]
    ring
  · intro x
    have key : Matrix.dotProduct (star x)
        ((control_noise_mat noise delta_theta odemetry pos_theta) *ᵥ x)
        = noise * (∑ i, c i * x i) ^ 2 := by
      simp only [Matrix.mulVec, Matrix.dotProduct, control_noise_mat,
        Matrix.of_apply, star_trivial]
      rw [sq, Finset.sum_mul_sum, Finset.mul_sum]
      refine Finset.sum_congr rfl fun i _ => ?_
      rw [Finset.mul_sum, Finset.mul_sum]
      refine Finset.sum_congr rfl fun j _ => ?_
      ring
    rw [key]
    exact mul_nonneg hn (sq_nonneg _)

theorem reachable_posSemidef (u noise : ℝ) (hu : 0 ≤ u) (hn : 0 ≤ noise)
    (P : Matrix (Fin 3) (Fin 3) ℝ) (hP : ReachablePoseCov u noise P) :
    P.PosSemidef := by
  induction hP with
  | init =>
    have hdiag : (u • (1 : Matrix (Fin 3) (Fin 3) ℝ))
        = Matrix.diagonal (fun _ => u) := by
      ext i j
      by_cases h : i = j <;>
        simp [Matrix.diagonal_apply, Matrix.one_apply, h]
    rw [hdiag]
    exact Matrix.posSemidef_diagonal_iff.mpr fun _ => hu
  | step Q dt od pt _ ih =>
    unfold update_position_covariance_mat
    refine Matrix.PosSemidef.add ?_ (control_noise_mat_posSemidef noise dt od pt hn)
    rw [← Matrix.conjTranspose_eq_transpose_of_trivial]
    exact ih.mul_mul_conjTranspose_same _

/-- Determinants of positive semidefinite real matrices are nonnegative. -/
theorem psd_det_nonneg {m : Type*} [Fintype m] [DecidableEq m]
    {A : Matrix m m ℝ} (hA : A.PosSemidef) : 0 ≤ A.det := by
  rw [hA.1.det_eq_prod_eigenvalues]
  refine Finset.prod_nonneg fun i _ => ?_
  simpa [RCLike.ofReal_real_eq_id] using hA.eigenvalues_nonneg i

/-- Adding a positive semidefinite matrix cannot decrease the determinant
of a positive semidefinite matrix. -/
theorem psd_det_le_det_add (A B : Matrix (Fin 3) (Fin 3) ℝ)
    (hA : A.PosSemidef) (hB : B.PosSemidef) : A.det ≤ (A + B).det := by
  by_cases hdet : A.det = 0
  · rw [hdet]
    exact psd_det_nonneg (hA.add hB)
  · have hdpos : 0 < A.det := lt_of_le_of_ne (psd_det_nonneg hA) (Ne.symm hdet)
    set S := hA.sqrt with hSdef
    have hSS : S * S = A := hA.sqrt_mul_self
    have hdetS : S.det * S.det = A.det := by rw [← Matrix.det_mul, hSS]
    have hdS : IsUnit S.det := by
      refine Ne.isUnit fun h => hdet ?_
      rw [← hdetS, h, mul_zero]
    have hSh : Sᴴ = S := hA.posSemidef_sqrt.1
    set M := S⁻¹ * B * (S⁻¹)ᴴ with hMdef
    have hM : M.PosSemidef := hB.mul_mul_conjTranspose_same S⁻¹
    have hdecomp : A + B = S * (1 + M) * S := by
      have h2 : S * M * S = B := by
        rw [hMdef, Matrix.conjTranspose_nonsing_inv, hSh]
        rw [← mul_assoc, ← mul_assoc, Matrix.mul_nonsing_inv S hdS, one_mul,
          mul_assoc, Matrix.nonsing_inv_mul S hdS, mul_one]
      rw [mul_add, mul_one, add_mul, hSS, h2]
    have hdet1M : 1 ≤ (1 + M).det := by
      have hMh : M.IsHermitian := hM.1
      set U : Matrix (Fin 3) (Fin 3) ℝ :=
        (Matrix.IsHermitian.eigenvectorUnitary hMh : Matrix (Fin 3) (Fin 3) ℝ)
        with hU
      have hUU : U * star U = 1 :=
        Matrix.mem_unitaryGroup_iff.mp (Matrix.IsHermitian.eigenvectorUnitary hMh).2
      have h1M : (1 : Matrix (Fin 3) (Fin 3) ℝ) + M =
          U * (1 + Matrix.diagonal (RCLike.ofReal ∘ hMh.eigenvalues)) * star U := by
        rw [mul_add, mul_one, add_mul, hUU]
        exact congrArg _ hMh.spectral_theorem
      rw [h1M, Matrix.det_mul, Matrix.det_mul]
      have hUdet : U.det * (star U).det = 1 := by
        rw [← Matrix.det_mul, hUU, Matrix.det_one]
      have hre : U.det *
          ((1 : Matrix (Fin 3) (Fin 3) ℝ) +
            Matrix.diagonal (RCLike.ofReal ∘ hMh.eigenvalues)).det * (star U).det
          = ((1 : Matrix (Fin 3) (Fin 3) ℝ) +
            Matrix.diagonal (RCLike.ofReal ∘ hMh.eigenvalues)).det := by
        rw [mul_comm U.det, mul_assoc, hUdet, mul_one]
      rw [hre, ← Matrix.diagonal_one, Matrix.diagonal_add, Matrix.det_diagonal]
      calc (1:ℝ) = ∏ _i : Fin 3, (1:ℝ) := by simp
        _ ≤ _ := by
          refine Finset.prod_le_prod (fun i _ => zero_le_one) fun i _ => ?_
          have := hM.eigenvalues_nonneg i
          simp only [Pi.add_apply, Pi.one_apply, Function.comp_apply,
            RCLike.ofReal_real_eq_id, id_eq]
          linarith
    have hfinal : S.det * (1 + M).det * S.det = A.det * (1 + M).det := by
      rw [← hdetS]
      ring
    rw [hdecomp, Matrix.det_mul, Matrix.det_mul, hfinal]
    nlinarith [hdpos, hdet1M]

/-- C5: for every reachable pose covariance `P` (with nonnegative initial
uncertainty and odometry noise), a move with nonzero `Δθ` or nonzero
odometry `d` and no landmark observations influencing the pose yields a
top-left 3×3 covariance block with determinant at least `det P`. -/
theorem covariance_determinant_growth (u noise : ℝ) (hu : 0 ≤ u) (hn : 0 ≤ noise)
    (P : Matrix (Fin 3) (Fin 3) ℝ) (hP : ReachablePoseCov u noise P)
    (delta_theta odemetry pos_theta : ℝ)
    (hmove : delta_theta ≠ 0 ∨ odemetry ≠ 0) :
    P.det ≤ (update_position_covariance_mat noise P delta_theta odemetry
      pos_theta).det := by
  have hPsd := reachable_posSemidef u noise hu hn P hP
  have hdetF : (prediction_jacobian_mat odemetry pos_theta).det = 1 := by
    rw [Matrix.det_fin_three]
    simp +decide [prediction_jacobian_mat]
  have hsand : (prediction_jacobian_mat odemetry pos_theta * P *
      (prediction_jacobian_mat odemetry pos_theta)ᵀ).det = P.det := by
    rw [Matrix.det_mul, Matrix.det_mul, Matrix.det_transpose, hdetF]
    ring
  have hsandPsd : (prediction_jacobian_mat odemetry pos_theta * P *
      (prediction_jacobian_mat odemetry pos_theta)ᵀ).PosSemidef := by
    rw [← Matrix.conjTranspose_eq_transpose_of_trivial]
    exact hPsd.mul_mul_conjTranspose_same _
  calc P.det
      = (prediction_jacobian_mat odemetry pos_theta * P *
          (prediction_jacobian_mat odemetry pos_theta)ᵀ).det := hsand.symm
    _ ≤ (update_position_covariance_mat noise P delta_theta odemetry
          pos_theta).det :=
        psd_det_le_det_add _ _ hsandPsd
          (control_noise_mat_posSemidef noise delta_theta odemetry pos_theta hn)

/-- Witness for C5 at the default parameters, the initial covariance, and
the move `Δθ = 0`, `d = 1`, `θ = 0`. -/
theorem covariance_determinant_growth_witness :
    ((0.95 : ℝ) • (1 : Matrix (Fin 3) (Fin 3) ℝ)).det ≤
      (update_position_covariance_mat 0.05
        ((0.95 : ℝ) • (1 : Matrix (Fin 3) (Fin 3) ℝ)) 0 1 0).det :=
  covariance_determinant_growth 0.95 0.05 (by norm_num) (by norm_num)
    _ ReachablePoseCov.init 0 1 0 (Or.inr one_ne_zero)

/-! ## The collision map and its ray-traversal loop

Embeds `CollisionMap` (collision_map.py).  A Python dict preserving
insertion order becomes an association list: lookups take the first match,
assignments of missing keys append, and in-place mutation of a stored
`MapLocation` maps over the entry.
-/

/-- Dict lookup `self.map[key]` (`None` when missing). -/
def map_lookup (m : List ((ℤ × ℤ) × MapLocation)) (k : ℤ × ℤ) :
    Option MapLocation :=
  (m.find? fun e => decide (e.1 = k)).map (·.2)

/-- In-place mutation of the `MapLocation` stored at a key. -/
def map_modify (m : List ((ℤ × ℤ) × MapLocation)) (k : ℤ × ℤ)
    (f : MapLocation → MapLocation) : List ((ℤ × ℤ) × MapLocation) :=
  m.map fun e => if e.1 = k then (e.1, f e.2) else e

/-- `if not key in self.map: self.map[key] = MapLocation()` — new keys are
appended, preserving the dict's insertion order. -/
def map_get_or_insert (m : List ((ℤ × ℤ) × MapLocation)) (k : ℤ × ℤ) :
    List ((ℤ × ℤ) × MapLocation) :=
  if (map_lookup m k).isSome then m else m ++ [(k, ⟨0, 0, 0⟩)]

/-- A map which records possible obstacles (collision_map.py lines 27-39). -/
structure CollisionMap where
  scale : ℤ
  max_dist : ℤ
  map : List ((ℤ × ℤ) × MapLocation)
  deriving DecidableEq, Repr

/-- Translation of `CollisionMap.get_neighbor_keys` (collision_map.py
lines 52-64): `dx`, `dy` each range over `−scale, 0, scale`, skipping
`(0, 0)`, in that order. -/
def get_neighbor_keys (scale : ℤ) (x y : ℝ) : List (ℤ × ℤ) :=
  let k := collision_get_key scale x y
  [(k.1 - scale, k.2 - scale), (k.1 - scale, k.2), (k.1 - scale, k.2 + scale),
   (k.1, k.2 - scale), (k.1, k.2 + scale),
   (k.1 + scale, k.2 - scale), (k.1 + scale, k.2), (k.1 + scale, k.2 + scale)]

/-- The Euclidean distance from a cell key to the ray endpoint, as the loop
computes it (`sqrt((end_x - x)**2 + (end_y - y)**2)`). -/
def rayDist (ex ey : ℝ) (p : ℤ × ℤ) : ℝ :=
  Real.sqrt ((ex - p.1) ^ 2 + (ey - p.2) ^ 2)

/-- The perpendicular distance from a candidate cell to the ray's line
(collision_map.py line 113).  For the coefficients the loop passes,
`a² + b² = sin² + cos² = 1`, so the division is total. -/
def line_err (la lb lc : ℝ) (p : ℤ × ℤ) : ℝ :=
  |la * p.1 + lb * p.2 + lc| / Real.sqrt (la ^ 2 + lb ^ 2)

/-- The candidate-selection part of the loop body (collision_map.py
lines 102-120): scan the 8 neighbors in order, skip any not strictly
closer to the endpoint, and keep the first strict minimizer of the
perpendicular error. -/
def next_cell (scale : ℤ) (ex ey la lb lc : ℝ) (xy : ℤ × ℤ) : Option (ℤ × ℤ) :=
  (get_neighbor_keys scale xy.1 xy.2).foldl
    (fun best o =>
      if rayDist ex ey xy ≤ rayDist ex ey o then best
      else
        match best with
        | none => some o
        | some b => if line_err la lb lc o < line_err la lb lc b then some o
          else best)
    none

/-- One iteration of the `while` loop of `__add_line` restricted to its
control state (the current cell key): the loop's three exits (distance
beyond `max_dist`, reaching the endpoint's neighbor ring, no improving
neighbor) keep the cell, otherwise it moves to the selected neighbor. -/
def add_line_step (scale max_dist : ℤ) (ex ey la lb lc : ℝ) (end_key : ℤ × ℤ)
    (xy : ℤ × ℤ) : ℤ × ℤ :=
  if rayDist ex ey xy ≤ (max_dist : ℝ) then
    if xy ∈ get_neighbor_keys scale end_key.1 end_key.2 then xy
    else
      match next_cell scale ex ey la lb lc xy with
      | none => xy
      | some n => n
  else xy

/-- The integer lattice points within distance `r` of the endpoint. -/
def latticeBall (ex ey r : ℝ) : Finset (ℤ × ℤ) :=
  ((Finset.Icc ⌈ex - r⌉ ⌊ex + r⌋) ×ˢ (Finset.Icc ⌈ey - r⌉ ⌊ey + r⌋)).filter
    fun p => (ex - p.1) ^ 2 + (ey - p.2) ^ 2 ≤ r ^ 2

theorem mem_latticeBall (ex ey r : ℝ) (hr : 0 ≤ r) (p : ℤ × ℤ) :
    p ∈ latticeBall ex ey r ↔ (ex - p.1) ^ 2 + (ey - p.2) ^ 2 ≤ r ^ 2 := by
  constructor
  · intro h
    exact (Finset.mem_filter.mp h).2
  · intro h
    refine Finset.mem_filter.mpr ⟨Finset.mem_product.mpr ⟨?_, ?_⟩, h⟩
    · refine Finset.mem_Icc.mpr ⟨Int.ceil_le.mpr ?_, Int.le_floor.mpr ?_⟩
      · nlinarith [sq_nonneg (ey - p.2), sq_nonneg ((ex - p.1) - r),
          sq_nonneg ((ex - p.1) + r)]
      · nlinarith [sq_nonneg (ey - p.2), sq_nonneg ((ex - p.1) - r),
          sq_nonneg ((ex - p.1) + r)]
    · refine Finset.mem_Icc.mpr ⟨Int.ceil_le.mpr ?_, Int.le_floor.mpr ?_⟩
      · nlinarith [sq_nonneg (ex - p.1), sq_nonneg ((ey - p.2) - r),
          sq_nonneg ((ey - p.2) + r)]
      · nlinarith [sq_nonneg (ex - p.1), sq_nonneg ((ey - p.2) - r),
          sq_nonneg ((ey - p.2) + r)]

theorem self_mem_latticeBall (ex ey : ℝ) (p : ℤ × ℤ) :
    p ∈ latticeBall ex ey (rayDist ex ey p) := by
  rw [mem_latticeBall ex ey (rayDist ex ey p) (Real.sqrt_nonneg _), rayDist,
    Real.sq_sqrt (by positivity)]

theorem latticeBall_card_lt (ex ey : ℝ) (p q : ℤ × ℤ)
    (h : rayDist ex ey q < rayDist ex ey p) :
    (latticeBall ex ey (rayDist ex ey q)).card
      < (latticeBall ex ey (rayDist ex ey p)).card := by
  have hq0 : 0 ≤ rayDist ex ey q := Real.sqrt_nonneg _
  have hp0 : 0 ≤ rayDist ex ey p := Real.sqrt_nonneg _
  refine Finset.card_lt_card ?_
  rw [Finset.ssubset_def]
  constructor
  · intro x hx
    rw [mem_latticeBall ex ey _ hq0] at hx
    rw [mem_latticeBall ex ey _ hp0]
    calc (ex - x.1) ^ 2 + (ey - x.2) ^ 2 ≤ (rayDist ex ey q) ^ 2 := hx
      _ ≤ (rayDist ex ey p) ^ 2 := by nlinarith
  · intro hsub
    have hmem2 := hsub (self_mem_latticeBall ex ey p)
    rw [mem_latticeBall ex ey _ hq0] at hmem2
    have hP : (ex - (p.1 : ℝ)) ^ 2 + (ey - (p.2 : ℝ)) ^ 2
        = (rayDist ex ey p) ^ 2 := by
      rw [rayDist, Real.sq_sqrt (by positivity)]
    have hQlt : (rayDist ex ey q) ^ 2 < (rayDist ex ey p) ^ 2 :=
      pow_lt_pow_left h hq0 two_ne_zero
    linarith [hmem2, hP.le, hP.ge, hQlt]

/-- The fold of `next_cell` only ever selects neighbors that are strictly
closer to the endpoint. -/
theorem next_cell_fold_spec (ex ey la lb lc : ℝ) (xy : ℤ × ℤ)
    (L : List (ℤ × ℤ)) :
    ∀ (l : List (ℤ × ℤ)) (acc : Option (ℤ × ℤ)) (n : ℤ × ℤ),
      (∀ b, acc = some b → b ∈ L ∧ rayDist ex ey b < rayDist ex ey xy) →
      (∀ o ∈ l, o ∈ L) →
      l.foldl (fun best o =>
        if rayDist ex ey xy ≤ rayDist ex ey o then best
        else
          match best with
          | none => some o
          | some b => if line_err la lb lc o < line_err la lb lc b then some o
            else best) acc = some n →
      n ∈ L ∧ rayDist ex ey n < rayDist ex ey xy
  | [], acc, n, hacc, _, hfold => hacc n hfold
  | o :: rest, acc, n, hacc, hmem, hfold => by
    rw [List.foldl_cons] at hfold
    refine next_cell_fold_spec ex ey la lb lc xy L rest _ n ?_
      (fun o' ho' => hmem o' (List.mem_cons_of_mem _ ho')) hfold
    intro b hb
    by_cases hskip : rayDist ex ey xy ≤ rayDist ex ey o
    · rw [if_pos hskip] at hb
      exact hacc b hb
    · rw [if_neg hskip] at hb
      cases hacc0 : acc with
      | none =>
        rw [hacc0] at hb
        simp only at hb
        cases hb
        exact ⟨hmem o (List.mem_cons_self o rest), by linarith [not_le.mp hskip]⟩
      | some b0 =>
        rw [hacc0] at hb
        simp only at hb
        split_ifs at hb
        · cases hb
          exact ⟨hmem o (List.mem_cons_self o rest), by linarith [not_le.mp hskip]⟩
        · cases hb
          exact hacc _ hacc0

/-- A selected next cell is one of the 8 neighbors and is strictly closer
to the ray endpoint. -/
theorem next_cell_spec (scale : ℤ) (ex ey la lb lc : ℝ) (xy n : ℤ × ℤ)
    (h : next_cell scale ex ey la lb lc xy = some n) :
    n ∈ get_neighbor_keys scale xy.1 xy.2 ∧
      rayDist ex ey n < rayDist ex ey xy := by
  refine next_cell_fold_spec ex ey la lb lc xy
    (get_neighbor_keys scale xy.1 xy.2) _ none n ?_ (fun o ho => ho) h
  intro b hb
  cases hb

/-- C10: the ray-traversal `while` loop of `CollisionMap.__add_line`
terminates for every pose, angle and distance: every iteration either
breaks or moves to a neighbor cell strictly closer to the ray endpoint,
and only finitely many lattice cells lie within any distance of the
endpoint, so some iterate of the loop step is a fixed point (a loop
exit). -/
theorem add_line_loop_terminates (scale max_dist : ℤ) (ex ey la lb lc : ℝ)
    (end_key : ℤ × ℤ) (xy0 : ℤ × ℤ) :
    (∀ xy n, next_cell scale ex ey la lb lc xy = some n →
      n ∈ get_neighbor_keys scale xy.1 xy.2 ∧
        rayDist ex ey n < rayDist ex ey xy) ∧
    ∃ k, add_line_step scale max_dist ex ey la lb lc end_key
        ((add_line_step scale max_dist ex ey la lb lc end_key)^[k] xy0)
      = (add_line_step scale max_dist ex ey la lb lc end_key)^[k] xy0 := by
  refine ⟨fun xy n h => next_cell_spec scale ex ey la lb lc xy n h, ?_⟩
  suffices H : ∀ (N : ℕ) (xy : ℤ × ℤ),
      (latticeBall ex ey (rayDist ex ey xy)).card ≤ N →
      ∃ k, add_line_step scale max_dist ex ey la lb lc end_key
          ((add_line_step scale max_dist ex ey la lb lc end_key)^[k] xy)
        = (add_line_step scale max_dist ex ey la lb lc end_key)^[k] xy by
    exact H _ xy0 le_rfl
  intro N
  induction N with
  | zero =>
    intro xy hcard
    refine ⟨0, ?_⟩
    by_contra hne
    have : 0 < (latticeBall ex ey (rayDist ex ey xy)).card :=
      Finset.card_pos.mpr ⟨xy, self_mem_latticeBall ex ey xy⟩
    omega
  | succ N ih =>
    intro xy hcard
    by_cases hfix : add_line_step scale max_dist ex ey la lb lc end_key xy = xy
    · exact ⟨0, by simpa using hfix⟩
    · have hnext : ∃ n, next_cell scale ex ey la lb lc xy = some n ∧
          add_line_step scale max_dist ex ey la lb lc end_key xy = n := by
        unfold add_line_step at hfix ⊢
        split_ifs at hfix ⊢ with h1 h2
        · exact absurd rfl hfix
        · cases hn : next_cell scale ex ey la lb lc xy with
          | none => rw [hn] at hfix; exact absurd rfl hfix
          | some n => exact ⟨n, rfl, rfl⟩
        · exact absurd rfl hfix
      obtain ⟨n, hn, hstep⟩ := hnext
      have hlt := (next_cell_spec scale ex ey la lb lc xy n hn).2
      have hcardlt := latticeBall_card_lt ex ey xy n hlt
      obtain ⟨k, hk⟩ := ih n (by omega)
      refine ⟨k + 1, ?_⟩
      rw [Function.iterate_succ_apply, hstep]
      exact hk

end

/-!
## Collision-map serialization (C2)

collision_map_unittests.py (`test_rep`, `test_rep_round_trip`) and
render_collision_map.py call `str(map)` and `CollisionMap.from_string`,
but the two methods are absent from src/collision_map.py.  The pair is
therefore modelled from the spec's stable v1 text format: a `v1` header
line, a `scale,max_dist` column-header line, the two values, a
`x,y,stepped_count,missed_count,hit_count` column-header line, then one
comma-separated line per cell in insertion order, newline-separated with
no trailing newline; the parser accepts the cells in any order and
rejects non-positive `scale`/`max_dist` (argument errors are modelled as
a `none` result).
-/

/-- Modelled from the spec: the character of a single decimal digit. -/
def digitChar (n : ℕ) : Char :=
  if n = 0 then '0' else if n = 1 then '1' else if n = 2 then '2'
  else if n = 3 then '3' else if n = 4 then '4' else if n = 5 then '5'
  else if n = 6 then '6' else if n = 7 then '7' else if n = 8 then '8'
  else '9'

/-- Modelled from the spec: the decimal digits of a natural number, most
significant first; `fuel` (any bound above the number) makes the
recursion structural. -/
def natCharsAux : ℕ → ℕ → List Char
  | 0, _ => []
  | fuel + 1, n =>
    if n < 10 then [digitChar n]
    else natCharsAux fuel (n / 10) ++ [digitChar (n % 10)]

/-- Modelled from the spec: the decimal representation of a natural
number. -/
def natChars (n : ℕ) : List Char := natCharsAux (n + 1) n

/-- Modelled from the spec: the decimal representation of an integer,
with a leading minus sign when negative. -/
def intChars (i : ℤ) : List Char :=
  if i < 0 then '-' :: natChars (-i).toNat else natChars i.toNat

/-- Modelled from the spec: consume one decimal digit onto an
accumulated value; a non-digit character poisons the parse. -/
def pushDigit (acc : Option ℕ) (c : Char) : Option ℕ :=
  match acc with
  | none => none
  | some a =>
    if 48 ≤ c.toNat ∧ c.toNat ≤ 57 then some (a * 10 + (c.toNat - 48))
    else none

/-- Modelled from the spec: parse a nonempty all-digit token. -/
def charsNat (l : List Char) : Option ℕ :=
  if l = [] then none else l.foldl pushDigit (some 0)

/-- Modelled from the spec: parse an optionally minus-signed decimal
token. -/
def charsInt (l : List Char) : Option ℤ :=
  if l.head? = some '-' then (charsNat l.tail).map fun n : ℕ => -(n : ℤ)
  else (charsNat l).map fun n : ℕ => (n : ℤ)

/-- Modelled from the spec: interpose a separator character between
tokens (Python sep.join). -/
def joinWith (sep : Char) : List (List Char) → List Char
  | [] => []
  | [x] => x
  | x :: y :: t => x ++ sep :: joinWith sep (y :: t)

/-- Modelled from the spec: split at every occurrence of the separator
(Python str.split with an explicit separator). -/
def splitOnChar (sep : Char) : List Char → List (List Char)
  | [] => [[]]
  | c :: rest =>
    match splitOnChar sep rest with
    | [] => [[]]
    | h :: t => if c = sep then [] :: h :: t else (c :: h) :: t

/-- Modelled from the spec: the serialized line of one map cell. -/
def cell_line (e : (ℤ × ℤ) × MapLocation) : List Char :=
  joinWith ','
    [intChars e.1.1, intChars e.1.2, natChars e.2.stepped_count,
     natChars e.2.missed_count, natChars e.2.hit_count]

/-- Modelled from the spec: the serializer (the missing
`CollisionMap.__str__`), following the spec's v1 format, cells in
insertion order, no trailing newline. -/
def collision_map_str (m : CollisionMap) : List Char :=
  joinWith '\n'
    ("v1".data :: "scale,max_dist".data ::
      joinWith ',' [intChars m.scale, intChars m.max_dist] ::
      "x,y,stepped_count,missed_count,hit_count".data ::
      m.map.map cell_line)

/-- Modelled from the spec: parse the per-cell lines; any malformed line
fails the whole parse, and cells are accepted in any order. -/
def parse_cells : List (List Char) → Option (List ((ℤ × ℤ) × MapLocation))
  | [] => some []
  | line :: rest =>
    match splitOnChar ',' line with
    | [xs, ys, ss, ms, hs] =>
      match charsInt xs, charsInt ys, charsNat ss, charsNat ms,
          charsNat hs, parse_cells rest with
      | some x, some y, some s, some mi, some h, some cells =>
          some (((x, y), ⟨s, mi, h⟩) :: cells)
      | _, _, _, _, _, _ => none
    | _ => none

/-- Modelled from the spec: the parser (the missing
`CollisionMap.from_string`): it checks the v1 header and both
column-header lines, reads `scale` and `max_dist`, rejects non-positive
values, and reads every remaining line as a cell. -/
def collision_map_from_string (str : List Char) : Option CollisionMap :=
  match splitOnChar '\n' str with
  | l1 :: l2 :: l3 :: l4 :: cellLines =>
    if l1 = "v1".data ∧ l2 = "scale,max_dist".data ∧
        l4 = "x,y,stepped_count,missed_count,hit_count".data then
      match splitOnChar ',' l3 with
      | [ss, ms] =>
        match charsInt ss, charsInt ms with
        | some sc, some md =>
          if 0 < sc ∧ 0 < md then
            (parse_cells cellLines).map fun cells =>
              { scale := sc, max_dist := md, map := cells }
          else none
        | _, _ => none
      | _ => none
    else none
  | _ => none

theorem digitChar_toNat (n : ℕ) (h : n < 10) : (digitChar n).toNat = 48 + n := by
  interval_cases n <;> rfl

theorem mem_natCharsAux (fuel : ℕ) : ∀ n c, c ∈ natCharsAux fuel n →
    48 ≤ c.toNat ∧ c.toNat ≤ 57 := by
  induction fuel with
  | zero => intro n c hc; simp [natCharsAux] at hc
  | succ fuel ih =>
    intro n c hc
    rw [natCharsAux] at hc
    split_ifs at hc with h10
    · simp only [List.mem_singleton] at hc
      subst hc
      rw [digitChar_toNat n h10]
      omega
    · rw [List.mem_append, List.mem_singleton] at hc
      rcases hc with hc | hc
      · exact ih _ c hc
      · subst hc
        rw [digitChar_toNat _ (Nat.mod_lt n (by omega))]
        omega

theorem mem_natChars (n : ℕ) (c : Char) (hc : c ∈ natChars n) :
    48 ≤ c.toNat ∧ c.toNat ≤ 57 :=
  mem_natCharsAux (n + 1) n c hc

theorem mem_intChars (i : ℤ) (c : Char) (hc : c ∈ intChars i) :
    45 ≤ c.toNat ∧ c.toNat ≤ 57 := by
  rw [intChars] at hc
  split_ifs at hc with hneg
  · rw [List.mem_cons] at hc
    rcases hc with hc | hc
    · subst hc; exact ⟨le_refl _, by decide⟩
    · have := mem_natChars _ c hc; omega
  · have := mem_natChars _ c hc; omega

theorem natCharsAux_ne_nil (fuel n : ℕ) (h : 0 < fuel) :
    natCharsAux fuel n ≠ [] := by
  cases fuel with
  | zero => omega
  | succ fuel =>
    rw [natCharsAux]
    split_ifs
    · simp
    · simp

theorem natCharsAux_foldl : ∀ (fuel n : ℕ), n < fuel → ∀ (a : ℕ),
    (natCharsAux fuel n).foldl pushDigit (some a)
      = some (a * 10 ^ (natCharsAux fuel n).length + n) := by
  intro fuel
  induction fuel with
  | zero => intro n h; omega
  | succ fuel ih =>
    intro n h a
    rw [natCharsAux]
    split_ifs with h10
    · simp only [List.foldl_cons, List.foldl_nil, List.length_singleton]
      rw [pushDigit]
      rw [if_pos (by simp only [digitChar_toNat n h10]; omega :
            48 ≤ (digitChar n).toNat ∧ (digitChar n).toNat ≤ 57)]
      rw [digitChar_toNat n h10]
      norm_num
    · have hrec : n / 10 < fuel := by
        have h1 : n / 10 < n := Nat.div_lt_self (by omega) (by omega)
        omega
      rw [List.foldl_append, ih (n / 10) hrec a]
      simp only [List.foldl_cons, List.foldl_nil]
      rw [pushDigit]
      have hd := digitChar_toNat (n % 10) (Nat.mod_lt n (by omega))
      rw [if_pos (by simp only [hd]; omega :
            48 ≤ (digitChar (n % 10)).toNat ∧ (digitChar (n % 10)).toNat ≤ 57), hd]
      simp only [List.length_append, List.length_singleton]
      congr 1
      have h48 : 48 + n % 10 - 48 = n % 10 := by omega
      rw [h48, pow_succ]
      have hdm : 10 * (n / 10) + n % 10 = n := Nat.div_add_mod n 10
      have hexp : (a * 10 ^ (natCharsAux fuel (n / 10)).length + n / 10) * 10
            + n % 10
          = a * (10 ^ (natCharsAux fuel (n / 10)).length * 10)
            + (10 * (n / 10) + n % 10) := by ring
      rw [hexp, hdm]

theorem charsNat_natChars (n : ℕ) : charsNat (natChars n) = some n := by
  rw [charsNat, natChars, if_neg (natCharsAux_ne_nil (n + 1) n (by omega))]
  rw [natCharsAux_foldl (n + 1) n (by omega) 0]
  simp

theorem charsInt_intChars (i : ℤ) : charsInt (intChars i) = some i := by
  rw [intChars]
  split_ifs with hneg
  · rw [charsInt]
    rw [if_pos (show ('-' :: natChars (-i).toNat).head? = some '-' from rfl)]
    simp only [List.tail_cons]
    rw [charsNat_natChars]
    simp only [Option.map_some']
    congr 1
    rw [Int.toNat_of_nonneg (by omega)]
    omega
  · rw [charsInt]
    have hhead : (natChars i.toNat).head? ≠ some '-' := by
      cases hl : natChars i.toNat with
      | nil => exact absurd hl (natCharsAux_ne_nil _ _ (by omega))
      | cons c t =>
        have hc : c ∈ natChars i.toNat := by rw [hl]; exact List.mem_cons_self c t
        have := mem_natChars _ c hc
        simp only [List.head?_cons, ne_eq, Option.some.injEq]
        intro hcm
        subst hcm
        revert this
        decide
    rw [if_neg hhead, charsNat_natChars]
    simp only [Option.map_some']
    congr 1
    exact Int.toNat_of_nonneg (by omega)

theorem mem_joinWith (sep : Char) : ∀ (xs : List (List Char)) (c : Char),
    c ∈ joinWith sep xs → c = sep ∨ ∃ x ∈ xs, c ∈ x := by
  intro xs
  induction xs with
  | nil => intro c hc; simp [joinWith] at hc
  | cons x ys ih =>
    intro c hc
    cases ys with
    | nil =>
      rw [joinWith] at hc
      exact Or.inr ⟨x, List.mem_cons_self x [], hc⟩
    | cons y t =>
      rw [joinWith, List.mem_append, List.mem_cons] at hc
      rcases hc with hc | hc | hc
      · exact Or.inr ⟨x, List.mem_cons_self x _, hc⟩
      · exact Or.inl hc
      · rcases ih c hc with h | ⟨z, hz, hcz⟩
        · exact Or.inl h
        · exact Or.inr ⟨z, List.mem_cons_of_mem x hz, hcz⟩

theorem splitOnChar_ne_nil (sep : Char) : ∀ (l : List Char),
    splitOnChar sep l ≠ [] := by
  intro l
  induction l with
  | nil => simp [splitOnChar]
  | cons c rest ih =>
    rw [splitOnChar]
    cases hs : splitOnChar sep rest with
    | nil => simp
    | cons h t =>
      split_ifs
      · simp
      · simp

theorem splitOnChar_append (sep : Char) : ∀ (x l : List Char),
    sep ∉ x → ∀ h t, splitOnChar sep l = h :: t →
      splitOnChar sep (x ++ l) = (x ++ h) :: t := by
  intro x
  induction x with
  | nil => intro l _ h t hl; simpa using hl
  | cons c x ih =>
    intro l hsep h t hl
    have hc : c ≠ sep := fun hcs => hsep (hcs ▸ List.mem_cons_self c x)
    have hx : sep ∉ x := fun hxs => hsep (List.mem_cons_of_mem c hxs)
    simp only [List.cons_append, splitOnChar]
    rw [show splitOnChar sep (x.append l) = (x ++ h) :: t from ih l hx h t hl]
    simp [hc]

theorem splitOnChar_cons_sep (sep : Char) (l : List Char) :
    splitOnChar sep (sep :: l) = [] :: splitOnChar sep l := by
  rw [splitOnChar]
  cases hs : splitOnChar sep l with
  | nil => exact absurd hs (splitOnChar_ne_nil sep l)
  | cons h t => simp

theorem splitOnChar_joinWith (sep : Char) : ∀ (xs : List (List Char)),
    xs ≠ [] → (∀ x ∈ xs, sep ∉ x) →
      splitOnChar sep (joinWith sep xs) = xs := by
  intro xs
  induction xs with
  | nil => intro h; exact absurd rfl h
  | cons x ys ih =>
    intro _ hfree
    cases ys with
    | nil =>
      rw [joinWith]
      have := splitOnChar_append sep x [] (hfree x (List.mem_cons_self x []))
        [] [] rfl
      simpa using this
    | cons y t =>
      rw [joinWith]
      have hrec : splitOnChar sep (joinWith sep (y :: t)) = y :: t :=
        ih (by simp) fun z hz => hfree z (List.mem_cons_of_mem x hz)
      have hsep : splitOnChar sep (sep :: joinWith sep (y :: t))
          = [] :: y :: t := by
        rw [splitOnChar_cons_sep, hrec]
      have := splitOnChar_append sep x (sep :: joinWith sep (y :: t))
        (hfree x (List.mem_cons_self x _)) [] (y :: t) hsep
      simpa using this

theorem sep_not_mem_natChars (n : ℕ) (c : Char) (hc : c.toNat < 48) :
    c ∉ natChars n :=
  fun hm => absurd (mem_natChars n c hm).1 (by omega)

theorem sep_not_mem_intChars (i : ℤ) (c : Char) (hc : c.toNat < 45) :
    c ∉ intChars i :=
  fun hm => absurd (mem_intChars i c hm).1 (by omega)

theorem nl_not_mem_cell_line (e : (ℤ × ℤ) × MapLocation) :
    '\n' ∉ cell_line e := by
  intro hm
  rw [cell_line] at hm
  rcases mem_joinWith ',' _ '\n' hm with h | ⟨z, hz, hcz⟩
  · exact absurd h (by decide)
  · simp only [List.mem_cons, List.not_mem_nil, or_false] at hz
    rcases hz with rfl | rfl | rfl | rfl | rfl
    · exact sep_not_mem_intChars _ '\n' (by decide) hcz
    · exact sep_not_mem_intChars _ '\n' (by decide) hcz
    · exact sep_not_mem_natChars _ '\n' (by decide) hcz
    · exact sep_not_mem_natChars _ '\n' (by decide) hcz
    · exact sep_not_mem_natChars _ '\n' (by decide) hcz

theorem splitOnChar_cell_line (e : (ℤ × ℤ) × MapLocation) :
    splitOnChar ',' (cell_line e)
      = [intChars e.1.1, intChars e.1.2, natChars e.2.stepped_count,
         natChars e.2.missed_count, natChars e.2.hit_count] := by
  rw [cell_line]
  apply splitOnChar_joinWith
  · simp
  · intro x hx
    simp only [List.mem_cons, List.not_mem_nil, or_false] at hx
    rcases hx with rfl | rfl | rfl | rfl | rfl
    · exact sep_not_mem_intChars _ ',' (by decide)
    · exact sep_not_mem_intChars _ ',' (by decide)
    · exact sep_not_mem_natChars _ ',' (by decide)
    · exact sep_not_mem_natChars _ ',' (by decide)
    · exact sep_not_mem_natChars _ ',' (by decide)

theorem parse_cells_map : ∀ (l : List ((ℤ × ℤ) × MapLocation)),
    parse_cells (l.map cell_line) = some l := by
  intro l
  induction l with
  | nil => rfl
  | cons e t ih =>
    rw [List.map_cons, parse_cells, splitOnChar_cell_line]
    simp only [charsInt_intChars, charsNat_natChars, ih]

/-- C2: serialization round-trip.  Modelled from the spec (the serializer
`CollisionMap.__str__` and parser `CollisionMap.from_string` are exercised by
the unit tests and by render_collision_map.py but are missing from
src/collision_map.py): for every collision map with positive scale and
max_dist, parsing the serialized v1 text form — header line v1, the
scale,max_dist header and values, the cell column header, one
x,y,stepped_count,missed_count,hit_count line per cell in insertion order, no
trailing newline — yields a map equal to the original. -/
theorem serialization_round_trip (m : CollisionMap)
    (hs : 0 < m.scale) (hd : 0 < m.max_dist) :
    collision_map_from_string (collision_map_str m) = some m := by
  have hfree : ∀ x ∈ ("v1".data :: "scale,max_dist".data ::
      joinWith ',' [intChars m.scale, intChars m.max_dist] ::
      "x,y,stepped_count,missed_count,hit_count".data ::
      m.map.map cell_line), '\n' ∉ x := by
    intro x hx
    simp only [List.mem_cons] at hx
    rcases hx with rfl | rfl | rfl | rfl | hx
    · decide
    · decide
    · intro hm
      rcases mem_joinWith ',' _ '\n' hm with h | ⟨z, hz, hcz⟩
      · exact absurd h (by decide)
      · simp only [List.mem_cons, List.not_mem_nil, or_false] at hz
        rcases hz with rfl | rfl
        · exact sep_not_mem_intChars _ '\n' (by decide) hcz
        · exact sep_not_mem_intChars _ '\n' (by decide) hcz
    · decide
    · rw [List.mem_map] at hx
      obtain ⟨e, _, rfl⟩ := hx
      exact nl_not_mem_cell_line e
  have hlines : splitOnChar '\n' (collision_map_str m)
      = "v1".data :: "scale,max_dist".data ::
        joinWith ',' [intChars m.scale, intChars m.max_dist] ::
        "x,y,stepped_count,missed_count,hit_count".data ::
        m.map.map cell_line := by
    rw [collision_map_str]
    exact splitOnChar_joinWith '\n' _ (by simp) hfree
  have hl3 : splitOnChar ','
        (joinWith ',' [intChars m.scale, intChars m.max_dist])
      = [intChars m.scale, intChars m.max_dist] := by
    apply splitOnChar_joinWith
    · simp
    · intro x hx
      simp only [List.mem_cons, List.not_mem_nil, or_false] at hx
      rcases hx with rfl | rfl
      · exact sep_not_mem_intChars _ ',' (by decide)
      · exact sep_not_mem_intChars _ ',' (by decide)
  rw [collision_map_from_string, hlines]
  simp only [hl3, charsInt_intChars, parse_cells_map, Option.map_some']
  rw [if_pos ⟨trivial, trivial, trivial⟩, if_pos ⟨hs, hd⟩]

theorem serialization_round_trip_witness :
    0 < (CollisionMap.mk 5 100 [((0, 0), ⟨1, 0, 0⟩)]).scale ∧
    0 < (CollisionMap.mk 5 100 [((0, 0), ⟨1, 0, 0⟩)]).max_dist ∧
    collision_map_from_string
        (collision_map_str (CollisionMap.mk 5 100 [((0, 0), ⟨1, 0, 0⟩)]))
      = some (CollisionMap.mk 5 100 [((0, 0), ⟨1, 0, 0⟩)]) :=
  ⟨by decide, by decide,
    serialization_round_trip (CollisionMap.mk 5 100 [((0, 0), ⟨1, 0, 0⟩)])
      (by decide) (by decide)⟩

/-!
## The Slam orchestrator (C1)

Translation of slam.py: `LandmarkType`, `Landmark`, `LandmarkDB`, and the
`Slam` class around `move_observe_and_update` (lines 155-183).  The
`SensingAndControl` collaborator and the RANSAC extractor's seeded
randomness are external to the class; their outputs (the odometry returned
by `move`, the scan returned by `get_distance_reading`, and the extracted
RANSAC landmark list) enter the translation as oracle inputs.  Python
exceptions over mutable objects are modelled by an error value carrying
the state as already mutated when the exception is raised.
-/

noncomputable section

/-- The landmark extraction techniques (slam.py, `LandmarkType`). -/
inductive LandmarkType where
  | SPIKE
  | RANSAC
  deriving DecidableEq, Repr

/-- A SLAM landmark (slam.py, `Landmark`). -/
structure Landmark where
  landmark_type : LandmarkType
  x : ℝ
  y : ℝ
  times_seen : ℕ

/-- `LandmarkDB.find_nearest` (slam.py lines 109-125), reformulated to
return the db index of the nearest same-type landmark (the first such
index on exact distance ties, matching the loop's strict `<`), or `none`
when no landmark of the type exists.  Keeping the index models Python's
aliasing of the returned object with the db entry. -/
def find_nearest_idx (db : List Landmark) (t : LandmarkType) (lx ly : ℝ) :
    Option ℕ :=
  (db.enum.foldl
    (fun acc p =>
      if p.2.landmark_type ≠ t then acc
      else
        let d := Real.sqrt ((lx - p.2.x) ^ 2 + (ly - p.2.y) ^ 2)
        match acc with
        | none => some (p.1, d)
        | some q => if d < q.2 then some (p.1, d) else some q)
    none).map Prod.fst

/-- `Slam.landmark_association_threshold` (slam.py line 147). -/
def landmark_association_threshold : ℝ := 5

/-- `Slam.associate_landmarks` (slam.py lines 185-205) acting on the
landmark db: for each observed position, find the nearest stored landmark
of the type; if it is missing or farther than the association threshold,
append a fresh landmark, otherwise bump the stored landmark's
`times_seen` in place; return the updated db and the
(landmark, observation) pairs. -/
def slam_associate_landmarks (db : List Landmark) (t : LandmarkType)
    (landmarks : List (ℝ × ℝ)) :
    List Landmark × List (Landmark × (ℝ × ℝ)) :=
  landmarks.foldl
    (fun acc lp =>
      match find_nearest_idx acc.1 t lp.1 lp.2 with
      | none =>
        let nl : Landmark := ⟨t, lp.1, lp.2, 1⟩
        (acc.1 ++ [nl], acc.2 ++ [(nl, lp)])
      | some i =>
        let al := acc.1.getD i ⟨t, 0, 0, 1⟩
        if landmark_association_threshold
            < Real.sqrt ((lp.1 - al.x) ^ 2 + (lp.2 - al.y) ^ 2) then
          let nl : Landmark := ⟨t, lp.1, lp.2, 1⟩
          (acc.1 ++ [nl], acc.2 ++ [(nl, lp)])
        else
          let al2 : Landmark :=
            ⟨al.landmark_type, al.x, al.y, al.times_seen + 1⟩
          (acc.1.set i al2, acc.2 ++ [(al2, lp)]))
    (db, [])

/-- `Slam.spike_threshold` (slam.py line 137). -/
def spike_threshold : ℝ := 0.5

/-- `math.radians` on the integer scan index. -/
def radians (d : ℕ) : ℝ := (d : ℝ) * π / 180

/-- `Slam.extract_spike` (slam.py lines 207-223): a reading is a spike
landmark when it and both cyclic neighbors are nonnegative and the
discrete second difference meets the spike threshold; the landmark is
placed from the current pose along the reading's bearing. -/
def extract_spike (pos : ℝ × ℝ × ℝ) (raw_data : List ℝ) : List (ℝ × ℝ) :=
  (List.range raw_data.length).filterMap fun i =>
    let n := raw_data.length
    let B := raw_data.getD i 0
    let A := raw_data.getD ((i + n - 1) % n) 0
    let C := raw_data.getD ((i + 1) % n) 0
    if 0 ≤ A ∧ 0 ≤ B ∧ 0 ≤ C ∧ spike_threshold ≤ (A - B) + (C - B) then
      some (pos.1 + B * Real.cos (pos.2.2 - radians i),
            pos.2.1 + B * Real.sin (pos.2.2 - radians i))
    else none

/-- The mutable state of a `Slam` instance (slam.py `__init__`,
lines 144-148): the landmark db, the pose estimate, and the point map.
The class holds no EKF and no collision map. -/
structure SlamState where
  landmarks : List Landmark
  pos : ℝ × ℝ × ℝ
  map : List (ℝ × ℝ)

/-- `Slam.__init__`: empty db, origin pose, empty point map. -/
def Slam_init : SlamState := ⟨[], (0, 0, 0), []⟩

/-- `Slam.get_estimated_position` (slam.py lines 151-153). -/
def get_estimated_position (s : SlamState) : ℝ × ℝ × ℝ := s.pos

/-- The exception `move_observe_and_update` raises: its point-map loop
iterates `enumerate(raw_data)` but no name `raw_data` is in scope (the
local scan variable is `observations`), a Python NameError. -/
inductive SlamErr where
  | NameError
  deriving DecidableEq, Repr

/-- Translation of `Slam.move_observe_and_update` (slam.py lines 155-183):
store the odometry-advanced dead-reckoned pose, extract spike landmarks at
the post-move pose, take the RANSAC landmarks (oracle input for the seeded
extractor), associate both lists against the landmark db, and then raise
NameError in the point-map loop (`for i, reading in enumerate(raw_data)`
reads an undefined name).  A TODO comment in the source marks the absent
EKF refinement; no collision map is touched.  The raised error carries the
state with the pose and db mutations already applied. -/
def move_observe_and_update (s : SlamState) (theta distance : ℝ)
    (odemetry : ℝ) (observations : List ℝ)
    (ransac_landmarks : List (ℝ × ℝ)) :
    Except (SlamErr × SlamState) SlamState :=
  let pos_theta := s.pos.2.2 + theta
  let pos_x := s.pos.1 + odemetry * Real.cos pos_theta
  let pos_y := s.pos.2.1 + odemetry * Real.sin pos_theta
  let s1 : SlamState := ⟨s.landmarks, (pos_x, pos_y, pos_theta), s.map⟩
  let spike_landmarks := extract_spike s1.pos observations
  let r1 := slam_associate_landmarks s1.landmarks .SPIKE spike_landmarks
  let r2 := slam_associate_landmarks r1.1 .RANSAC ransac_landmarks
  let s2 : SlamState := ⟨r2.1, s1.pos, s1.map⟩
  .error (.NameError, s2)

/-- C1: the orchestrator of src/slam.py diverges from the claimed
sequence.  `Slam.move_observe_and_update` does call `move` and then
`get_distance_reading` and then the spike and RANSAC extractors, but it
never calls `EKF.update` and never records into a collision map (the
`Slam` state holds neither, and no `get_collision_map` accessor exists,
only `get_estimated_position`): the pose is advanced by dead reckoning
alone, and the observation-recording loop reads the undefined name
`raw_data`, so every call raises NameError, with the dead-reckoned — not
EKF-refined — pose already stored as the position estimate. -/
theorem slam_orchestrator_raises (s : SlamState)
    (theta distance odemetry : ℝ) (observations : List ℝ)
    (ransac_landmarks : List (ℝ × ℝ)) :
    ∃ s2 : SlamState,
      move_observe_and_update s theta distance odemetry observations
          ransac_landmarks = .error (.NameError, s2) ∧
      get_estimated_position s2
        = (s.pos.1 + odemetry * Real.cos (s.pos.2.2 + theta),
           s.pos.2.1 + odemetry * Real.sin (s.pos.2.2 + theta),
           s.pos.2.2 + theta) :=
  ⟨_, rfl, rfl⟩

end
